import Mathlib

/-!
Shallow embedding of the version/changelog computation engine of
kubebuilder-release-tools (notes/compose/notes.go and notes/common/prefix.go),
together with proofs about the claims of its specification.

Go strings are modelled as lists of characters (`Str`); UTF-8 byte-prefix
checks on the strings that occur here coincide with character-prefix checks,
since every marker and literal involved starts at a character boundary.
Go's `uint64` values are modelled as `Nat` with an explicit `% 2^64`
wherever the Go code performs arithmetic that can wrap.
Fallible Go functions return `Except`; a Go runtime panic (out-of-range
index) is modelled by an outer `Option` layer, `none` meaning the panic.
-/

deriving instance DecidableEq for Except

namespace KRT

abbrev Str := List Char

/-- Modulus of Go's `uint64` arithmetic. -/
def U64 : Nat := 2 ^ 64

/-- Characters that Go's `unicode.IsSpace` reports as white space
(the Latin-1 cases plus the Unicode White_Space code points). -/
def goIsSpace (c : Char) : Bool :=
  c = ' ' || c = '\t' || c = '\n' || c = '\u000B' || c = '\u000C' || c = '\r' ||
  c = '\u0085' || c = '\u00A0' || c = '\u1680' ||
  ('\u2000' ≤ c && c ≤ '\u200A') ||
  c = '\u2028' || c = '\u2029' || c = '\u202F' || c = '\u205F' || c = '\u3000'

/-- Model of Go `strings.HasPrefix s p`. -/
def hasPre (s p : Str) : Bool := p.isPrefixOf s

/-- Model of Go `strings.TrimPrefix s p`. -/
def trimPre (s p : Str) : Str := if hasPre s p then s.drop p.length else s

/-- Left half of Go `strings.TrimSpace`. -/
def dropSpacesL (s : Str) : Str := s.dropWhile goIsSpace

/-- Right half of Go `strings.TrimSpace`. -/
def trimRightL (s : Str) : Str := (s.reverse.dropWhile goIsSpace).reverse

/-- Model of Go `strings.TrimSpace`. -/
def goTrim (s : Str) : Str := dropSpacesL (trimRightL s)

end KRT

namespace KRT

/-! The pull-request type classifier from notes/common/prefix.go. -/

inductive PRType where
  | uncategorized
  | breaking
  | feature
  | bugfix
  | docs
  | infra
deriving DecidableEq, Repr

def emojiFeature : Str := ['✨']
def emojiBugfix : Str := ['🐛']
def emojiDocs : Str := ['📖']
def emojiInfra : Str := ['🌱']
def emojiBreaking : Str := ['⚠']
def emojiInfraLegacy : Str := ['🏃']

def aliasFeature : Str := ":sparkles:".toList
def aliasBugfix : Str := ":bug:".toList
def aliasDocs : Str := ":book:".toList
def aliasInfra : Str := ":seedling:".toList
def aliasBreaking : Str := ":warning:".toList
def aliasInfraLegacy : Str := ":running:".toList

/-- One leading U+FE0F variation selector. -/
def vs16 : Str := ['\uFE0F']

/-- Shared tail of every recognized branch of `PRTypeFromTitle`: strip the
variation selector from the title, if present, and trim white space. -/
def afterMarker (t : PRType) (title : Str) : PRType × Str :=
  (t, goTrim (trimPre title vs16))

/-- Model of `common.PRTypeFromTitle` from notes/common/prefix.go. -/
def PRTypeFromTitle (title0 : Str) : PRType × Str :=
  let title := goTrim title0
  if title.length = 0 then (.uncategorized, title)
  else if hasPre title aliasFeature || hasPre title emojiFeature then
    afterMarker .feature (trimPre (trimPre title aliasFeature) emojiFeature)
  else if hasPre title aliasBugfix || hasPre title emojiBugfix then
    afterMarker .bugfix (trimPre (trimPre title aliasBugfix) emojiBugfix)
  else if hasPre title aliasDocs || hasPre title emojiDocs then
    afterMarker .docs (trimPre (trimPre title aliasDocs) emojiDocs)
  else if hasPre title aliasInfra || hasPre title emojiInfra then
    afterMarker .infra (trimPre (trimPre title aliasInfra) emojiInfra)
  else if hasPre title aliasBreaking || hasPre title emojiBreaking then
    afterMarker .breaking (trimPre (trimPre title aliasBreaking) emojiBreaking)
  else if hasPre title aliasInfraLegacy || hasPre title emojiInfraLegacy then
    afterMarker .infra (trimPre (trimPre title aliasInfraLegacy) emojiInfraLegacy)
  else (.uncategorized, title)

/-- The recognized markers with their categories, in the order the code
checks them (textual alias and emoji of each category). -/
def markers : List (Str × PRType) :=
  [(aliasFeature, .feature), (emojiFeature, .feature),
   (aliasBugfix, .bugfix), (emojiBugfix, .bugfix),
   (aliasDocs, .docs), (emojiDocs, .docs),
   (aliasInfra, .infra), (emojiInfra, .infra),
   (aliasBreaking, .breaking), (emojiBreaking, .breaking),
   (aliasInfraLegacy, .infra), (emojiInfraLegacy, .infra)]

/-- The emoji partner of a textual alias marker (the second `TrimPrefix` the
code applies after stripping the alias). -/
def pairedEmoji (m : Str) : Option Str :=
  if m = aliasFeature then some emojiFeature
  else if m = aliasBugfix then some emojiBugfix
  else if m = aliasDocs then some emojiDocs
  else if m = aliasInfra then some emojiInfra
  else if m = aliasBreaking then some emojiBreaking
  else if m = aliasInfraLegacy then some emojiInfraLegacy
  else none

end KRT

namespace KRT

/-! Model of the parts of github.com/blang/semver/v4 used by notes/compose. -/

structure PRVersion where
  VersionStr : Str
  VersionNum : Nat
  IsNum : Bool
deriving DecidableEq, Repr

structure Version where
  Major : Nat
  Minor : Nat
  Patch : Nat
  Pre : List PRVersion
  Build : List Str
deriving DecidableEq, Repr

/-- Go lexicographic string comparison (byte order coincides with code-point
order under UTF-8). -/
def strCompare : Str → Str → Int
  | [], [] => 0
  | [], _ :: _ => -1
  | _ :: _, [] => 1
  | x :: xs, y :: ys => if x = y then strCompare xs ys else if x < y then -1 else 1

/-- Model of `semver.PRVersion.Compare`. -/
def prCompare (v o : PRVersion) : Int :=
  if v.IsNum && !o.IsNum then -1
  else if !v.IsNum && o.IsNum then 1
  else if v.IsNum && o.IsNum then
    (if v.VersionNum = o.VersionNum then 0
     else if o.VersionNum < v.VersionNum then 1 else -1)
  else
    (if v.VersionStr = o.VersionStr then 0
     else if 0 < strCompare v.VersionStr o.VersionStr then 1 else -1)

/-- The element-wise prerelease comparison loop of `semver.Version.Compare`,
including its shorter-list tie break. -/
def preCompare : List PRVersion → List PRVersion → Int
  | [], [] => 0
  | [], _ :: _ => -1
  | _ :: _, [] => 1
  | x :: xs, y :: ys => if prCompare x y = 0 then preCompare xs ys else prCompare x y

/-- Model of `semver.Version.Compare` (build metadata is ignored). -/
def compareVersion (v o : Version) : Int :=
  if v.Major ≠ o.Major then (if o.Major < v.Major then 1 else -1)
  else if v.Minor ≠ o.Minor then (if o.Minor < v.Minor then 1 else -1)
  else if v.Patch ≠ o.Patch then (if o.Patch < v.Patch then 1 else -1)
  else
    match v.Pre, o.Pre with
    | [], [] => 0
    | [], _ :: _ => 1
    | _ :: _, [] => -1
    | a :: as', b :: bs' => preCompare (a :: as') (b :: bs')

/-- Decimal digit characters. -/
def isDigitC (c : Char) : Bool := c ≥ '0' && c ≤ '9'

/-- Lower-case ASCII letters. -/
def isLowerAZ (c : Char) : Bool := c ≥ 'a' && c ≤ 'z'

/-- Upper-case ASCII letters. -/
def isUpperAZ (c : Char) : Bool := c ≥ 'A' && c ≤ 'Z'

/-- Characters allowed in alphanumeric semver identifiers
(Go `alphas + numbers`, where `alphas` includes the hyphen). -/
def isAlphanumC (c : Char) : Bool :=
  isLowerAZ c || isUpperAZ c || c = '-' || isDigitC c

/-- Numeric value of a digit character. -/
def digitVal (c : Char) : Nat := c.toNat - 48

/-- Base-10 value of a digit string. -/
def digitsVal (s : Str) : Nat := s.foldl (fun a c => 10 * a + digitVal c) 0

/-- Decimal rendering of a natural number, with explicit fuel (the fuel
`n + 1` always suffices, see `natDecAux_eval`). Models Go's base-10
`strconv` formatting of a `uint64`. -/
def natDecAux : Nat → Nat → Str
  | 0, _ => []
  | fuel + 1, n =>
    if n < 10 then [Nat.digitChar n]
    else natDecAux fuel (n / 10) ++ [Nat.digitChar (n % 10)]

/-- Decimal rendering of a natural number. -/
def natDec (n : Nat) : Str := natDecAux (n + 1) n

/-- Model of Go `strconv.ParseUint(s, 10, 64)`. -/
def parseUint64 (s : Str) : Except Str Nat :=
  if s.isEmpty then .error "parsing uint: invalid syntax".toList
  else if !s.all isDigitC then .error "parsing uint: invalid syntax".toList
  else if digitsVal s < U64 then .ok (digitsVal s)
  else .error "parsing uint: value out of range".toList

/-- Split at the first occurrence of `sep`, if any (Go `strings.IndexRune`
plus the two slicings done at its result). -/
def breakOn (sep : Char) : Str → Option (Str × Str)
  | [] => none
  | c :: rest =>
    if c = sep then some ([], rest)
    else match breakOn sep rest with
      | none => none
      | some (a, b) => some (c :: a, b)

/-- Helper for `splitOnChar`, carrying the reversed current field. -/
def splitOnCharAux (sep : Char) : Str → Str → List Str
  | [], acc => [acc.reverse]
  | c :: rest, acc =>
    if c = sep then acc.reverse :: splitOnCharAux sep rest []
    else splitOnCharAux sep rest (c :: acc)

/-- Model of Go `strings.Split(s, sep)` for a one-character separator. -/
def splitOnChar (sep : Char) (s : Str) : List Str := splitOnCharAux sep s []

/-- Model of Go `strings.SplitN(s, sep, 3)` for a one-character separator. -/
def splitN3 (sep : Char) (s : Str) : List Str :=
  match breakOn sep s with
  | none => [s]
  | some (a, r) =>
    match breakOn sep r with
    | none => [a, r]
    | some (b, c) => [a, b, c]

/-- Go `hasLeadingZeroes`. -/
def hasLeadingZeroes (s : Str) : Bool := decide (1 < s.length) && s.head? == some '0'

/-- The common major/minor/patch number handling of `semver.Parse`:
digits-only check, leading-zero check, `ParseUint`. -/
def parseNumPart (s : Str) : Except Str Nat :=
  if !s.all isDigitC then .error ("Invalid character(s) found in number ".toList ++ s)
  else if hasLeadingZeroes s then .error ("Number must not contain leading zeroes ".toList ++ s)
  else parseUint64 s

/-- Model of `semver.NewPRVersion`. -/
def newPRVersion (s : Str) : Except Str PRVersion :=
  if s.isEmpty then .error "Prerelease is empty".toList
  else if s.all isDigitC then
    if hasLeadingZeroes s then
      .error ("Numeric PreRelease version must not contain leading zeroes ".toList ++ s)
    else
      match parseUint64 s with
      | .error e => .error e
      | .ok n => .ok ⟨[], n, true⟩
  else if s.all isAlphanumC then .ok ⟨s, 0, false⟩
  else .error ("Invalid character(s) found in prerelease ".toList ++ s)

/-- The prerelease-parsing loop of `semver.Parse`. -/
def parsePRList : List Str → Except Str (List PRVersion)
  | [] => .ok []
  | s :: rest =>
    match newPRVersion s with
    | .error e => .error e
    | .ok p =>
      match parsePRList rest with
      | .error e => .error e
      | .ok ps => .ok (p :: ps)

/-- The build-metadata validation loop of `semver.Parse`. -/
def checkBuild : List Str → Except Str (List Str)
  | [] => .ok []
  | s :: rest =>
    if s.isEmpty then .error "Build meta data is empty".toList
    else if !s.all isAlphanumC then
      .error ("Invalid character(s) found in build meta data ".toList ++ s)
    else
      match checkBuild rest with
      | .error e => .error e
      | .ok bs => .ok (s :: bs)

/-- Model of `semver.Parse`. -/
def semverParse (s : Str) : Except Str Version :=
  if s.isEmpty then .error "Version string empty".toList
  else
    match splitN3 '.' s with
    | [majS, minS, restS] =>
      match parseNumPart majS with
      | .error e => .error e
      | .ok major =>
        match parseNumPart minS with
        | .error e => .error e
        | .ok minor =>
          let pb :=
            match breakOn '+' restS with
            | none => (restS, [])
            | some (a, b) => (a, splitOnChar '.' b)
          let pp :=
            match breakOn '-' pb.1 with
            | none => (pb.1, [])
            | some (a, b) => (a, splitOnChar '.' b)
          match parseNumPart pp.1 with
          | .error e => .error e
          | .ok patch =>
            match parsePRList pp.2 with
            | .error e => .error e
            | .ok preList =>
              match checkBuild pb.2 with
              | .error e => .error e
              | .ok buildList => .ok ⟨major, minor, patch, preList, buildList⟩
    | _ => .error "No Major.Minor.Patch elements found".toList

/-- Rendering of one prerelease component (`semver.PRVersion.String`). -/
def prRender (p : PRVersion) : Str := if p.IsNum then natDec p.VersionNum else p.VersionStr

/-- Dot-joining of rendered components. -/
def joinSep (sep : Char) : List Str → Str
  | [] => []
  | [x] => x
  | x :: rest => x ++ sep :: joinSep sep rest

/-- Model of `semver.Version.String`. -/
def semverRender (v : Version) : Str :=
  natDec v.Major ++ '.' :: natDec v.Minor ++ '.' :: natDec v.Patch
    ++ (if v.Pre.isEmpty then [] else '-' :: joinSep '.' (v.Pre.map prRender))
    ++ (if v.Build.isEmpty then [] else '+' :: joinSep '.' v.Build)

end KRT

namespace KRT

/-! Model of notes/compose/notes.go. -/

/-- Model of `ReleaseTag.Validate`: prerelease info, if present, must be an
alphanumeric kind followed by a numeric ordinal. -/
def tagValidate (v : Version) : Except Str Unit :=
  match v.Pre with
  | [] => .ok ()
  | [a, b] =>
    if a.IsNum || !b.IsNum then
      .error "invalid pre-release info (must be -\x7balpha,beta,rc\x7d.version)".toList
    else .ok ()
  | _ => .error "invalid pre-release info (must be -\x7balpha,beta,rc\x7d.version)".toList

/-- Committish rendering of a `ReleaseTag` (`"v" + semver string`). -/
def tagCommittish (v : Version) : Str := 'v' :: semverRender v

/-- Model of `parseReleaseTag`. The Go code indexes byte 0 of the raw tag
without a length guard, so the empty tag makes it panic (modelled as `none`);
the first byte of a non-empty UTF-8 string equals `'v'` exactly when its
first character does. -/
def parseReleaseTag (tagRaw : Str) : Option (Except Str Version) :=
  match tagRaw with
  | [] => none
  | c :: rest =>
    some
      (if c ≠ 'v' then .error "not a version tag (vX.Y.Z)".toList
       else
         match semverParse rest with
         | .error e => .error e
         | .ok v =>
           match tagValidate v with
           | .error e => .error e
           | .ok _ => .ok v)

/-- Model of `ReleaseBranch` (`semver.Version` embedded, plus the
`UseUpstream` flag). -/
structure ReleaseBranch where
  ver : Version
  UseUpstream : Bool
deriving DecidableEq, Repr

/-- Model of `ReleaseBranch.String` (also its `Committish`). -/
def branchRender (b : ReleaseBranch) : Str :=
  let upstreamPart : Str := if b.UseUpstream then "@\x7bu\x7d".toList else []
  if b.ver.Major = 0 then "release-0.".toList ++ natDec b.ver.Minor ++ upstreamPart
  else "release-".toList ++ natDec b.ver.Major ++ upstreamPart

/-- Model of `ReleaseFromBranch`, following the anchored regular expression
`release-((0[.](?P<minor>[0-9]+))|(?P<major>[0-9]+))` and the checks after it. -/
def ReleaseFromBranch (branchName : Str) : Except Str ReleaseBranch :=
  if hasPre branchName "release-".toList then
    let rest := branchName.drop 8
    if hasPre rest ['0', '.'] && !(rest.drop 2).isEmpty && (rest.drop 2).all isDigitC then
      match parseUint64 (rest.drop 2) with
      | .error e => .error ("could not parse minor version: ".toList ++ e)
      | .ok minor =>
        if minor = 0 then .error "release-0.0 is not a valid release".toList
        else .ok ⟨⟨0, minor, 0, [], []⟩, false⟩
    else if !rest.isEmpty && rest.all isDigitC then
      match parseUint64 rest with
      | .error e => .error ("could not parse major version: ".toList ++ e)
      | .ok major =>
        if major = 0 then .error "release-0 is not a valid release".toList
        else .ok ⟨⟨major, 0, 0, [], []⟩, false⟩
    else .error "not a valid release branch (release-0.Y or release-X)".toList
  else .error "not a valid release branch (release-0.Y or release-X)".toList

/-- The committish values produced by the version-resolution functions:
a `ReleaseTag`, a `FirstCommit` marker, or a raw user-supplied string. -/
inductive Committish where
  | tag (t : Version)
  | firstC (commit : Str) (branch : ReleaseBranch)
  | somec (s : Str)
deriving DecidableEq, Repr

/-- The `Committish()` string of each variant. -/
def Committish.render : Committish → Str
  | .tag t => tagCommittish t
  | .firstC c _ => c
  | .somec s => s

/-- The abstract `git.Git` collaborator: each query is keyed by the
committish string the Go code passes to it. -/
structure GitM where
  closestTag : Str → Except Str Str
  firstCommit : Str → Except Str Str
  hasUpstream : Str → Except Str Unit
  mergeCommitsBetween : Str → Str → Except Str Str

/-- Model of `ReleaseBranch.VerifyTagBelongs`. -/
def VerifyTagBelongs (b : ReleaseBranch) (tag : Version) : Except Str Unit :=
  if tag.Major ≠ b.ver.Major || (tag.Major = 0 && tag.Minor ≠ b.ver.Minor) then
    .error ("tag's version does not match the branch's version".toList)
  else .ok ()

/-- Model of `ReleaseBranch.LatestRelease`. `none` is the panic
`parseReleaseTag` raises on an empty tag string. -/
def LatestRelease (g : GitM) (b : ReleaseBranch) (checkVersion : Bool) :
    Option (Except Str Committish) :=
  match g.closestTag (branchRender b) with
  | .error err =>
    match g.firstCommit (branchRender b) with
    | .error commitErr =>
      some (.error ("unable to grab first commit on branch (".toList ++ commitErr
        ++ "), also unable to fetch most recent tag: ".toList ++ err))
    | .ok commitSHA => some (.ok (.firstC commitSHA b))
  | .ok tagRaw =>
    match parseReleaseTag tagRaw with
    | none => none
    | some (.error e) =>
      some (.error ("latest tag on branch was not a (valid?) version: ".toList ++ e))
    | some (.ok tag) =>
      if !checkVersion then some (.ok (.tag tag))
      else
        match VerifyTagBelongs b tag with
        | .error e => some (.error e)
        | .ok _ => some (.ok (.tag tag))

/-- Model of `checkOrClearUpstream` (the Go code mutates the branch through a
pointer; here the updated branch is returned). -/
def checkOrClearUpstream (g : GitM) (b : ReleaseBranch) : ReleaseBranch :=
  if !b.UseUpstream then b
  else
    match g.hasUpstream (branchRender b) with
    | .error _ => { b with UseUpstream := false }
    | .ok _ => b

/-- Go's `branch.Minor - 1` / `branch.Major - 1` on `uint64` (wraps at 0). -/
def u64sub1 (n : Nat) : Nat := if n = 0 then U64 - 1 else n - 1

/-- Model of `CurrentVersion`. Returns the result together with the final
state of the (pointer-mutated) branch argument. -/
def CurrentVersion (g : GitM) (branch0 : ReleaseBranch) :
    Option (Except Str Committish) × ReleaseBranch :=
  let origUseUpstream := branch0.UseUpstream
  let branch := checkOrClearUpstream g branch0
  match LatestRelease g branch false with
  | none => (none, branch)
  | some (.error e) => (some (.error e), branch)
  | some (.ok latestHere) =>
    match latestHere with
    | .tag tag =>
      if branch.ver.Major = 0 && tag.Major = 0 && tag.Minor = u64sub1 branch.ver.Minor then
        let prevRel : ReleaseBranch := ⟨⟨0, tag.Minor, 0, [], []⟩, origUseUpstream⟩
        let prevRel := checkOrClearUpstream g prevRel
        (LatestRelease g prevRel true, branch)
      else if branch.ver.Major = 1 && tag.Major = 0 then
        let prevRel : ReleaseBranch := ⟨⟨0, tag.Minor, 0, [], []⟩, branch.UseUpstream⟩
        let prevRel := checkOrClearUpstream g prevRel
        (LatestRelease g prevRel true, branch)
      else if 0 < branch.ver.Major && tag.Major = u64sub1 branch.ver.Major then
        let prevRel : ReleaseBranch := ⟨⟨tag.Major, 0, 0, [], []⟩, branch.UseUpstream⟩
        let prevRel := checkOrClearUpstream g prevRel
        (LatestRelease g prevRel true, branch)
      else
        match VerifyTagBelongs branch tag with
        | .error e => (some (.error e), branch)
        | .ok _ => (some (.ok (.tag tag)), branch)
    | _ => (some (.ok latestHere), branch)

/-- Model of `LogEntry`. -/
structure LogEntry where
  PRNumber : Str
  Title : Str
deriving DecidableEq, Repr

/-- Model of `ChangeLog`. -/
structure ChangeLog where
  Breaking : List LogEntry := []
  Features : List LogEntry := []
  Bugs : List LogEntry := []
  Docs : List LogEntry := []
  Infra : List LogEntry := []
  Uncategorized : List LogEntry := []
deriving DecidableEq, Repr

/-- Model of `ChangeLog.entryFromCommit`. -/
def entryFromCommit (l : ChangeLog) (prNum title : Str) : ChangeLog :=
  match PRTypeFromTitle title with
  | (prType, title') =>
    let entry : LogEntry := ⟨prNum, title'⟩
    match prType with
    | .feature => { l with Features := l.Features ++ [entry] }
    | .bugfix => { l with Bugs := l.Bugs ++ [entry] }
    | .docs => { l with Docs := l.Docs ++ [entry] }
    | .infra => { l with Infra := l.Infra ++ [entry] }
    | .breaking => { l with Breaking := l.Breaking ++ [entry] }
    | .uncategorized => { l with Uncategorized := l.Uncategorized ++ [entry] }

/-- Model of `ReleaseKind`. -/
inductive ReleaseKind where
  | final
  | alpha
  | beta
  | candidate
deriving DecidableEq, Repr

/-- Model of `ReleaseInfo`. -/
structure ReleaseInfo where
  Kind : ReleaseKind
  Pre10 : Bool
deriving DecidableEq, Repr

def alphaPR : PRVersion := ⟨"alpha".toList, 0, false⟩
def betaPR : PRVersion := ⟨"beta".toList, 0, false⟩
def candidatePR : PRVersion := ⟨"candidate".toList, 0, false⟩
def rcPR : PRVersion := ⟨"rc".toList, 0, false⟩
def num0PR : PRVersion := ⟨[], 0, true⟩

/-- Go `IncrementMajor` on `uint64` fields. -/
def incMajor (v : Version) : Version :=
  { v with Major := (v.Major + 1) % U64, Minor := 0, Patch := 0 }

/-- Go `IncrementMinor` on `uint64` fields. -/
def incMinor (v : Version) : Version :=
  { v with Minor := (v.Minor + 1) % U64, Patch := 0 }

/-- Go `IncrementPatch` on `uint64` fields. -/
def incPatch (v : Version) : Version :=
  { v with Patch := (v.Patch + 1) % U64 }

/-- Model of `ChangeLog.nextFinalVersion`. -/
def nextFinalVersion (c : ChangeLog) (current : Version) (pre10 : Bool) : Version :=
  let newTag := { current with Pre := [], Build := [] }
  if 0 < c.Breaking.length then
    if current.Major = 0 && pre10 then incMinor newTag else incMajor newTag
  else if 0 < c.Features.length then incMinor newTag
  else incPatch newTag

/-- The prerelease components the `switch info.Kind` statements attach
(`nil` for a final release). -/
def kindPre : ReleaseKind → List PRVersion
  | .alpha => [alphaPR, num0PR]
  | .beta => [betaPR, num0PR]
  | .candidate => [rcPR, num0PR]
  | .final => []

/-- Model of `ChangeLog.ExpectedNextVersion`. `none` is the panic that
`newTag.Pre[1]` raises when the same-kind branch fires on a one-element
prerelease list; the error case carries the message of the final `LE` check
or is unreachable. -/
def ExpectedNextVersion (c : ChangeLog) (currentVersion : Committish)
    (info : ReleaseInfo) : Option (Except Str Version) :=
  match currentVersion with
  | .firstC _ _ | .somec _ =>
    some (.ok ⟨0, 1, 0, kindPre info.Kind, []⟩)
  | .tag tag =>
    if info.Kind = .final then
      if 0 < tag.Pre.length then some (.ok { tag with Pre := [] })
      else some (.ok (nextFinalVersion c tag info.Pre10))
    else
      let wasPre := 0 < tag.Pre.length
      let alphaToAlpha := wasPre && tag.Pre.head? == some alphaPR && info.Kind == .alpha
      let betaToBeta := wasPre && tag.Pre.head? == some betaPR && info.Kind == .beta
      let candidateToCandidate :=
        wasPre && tag.Pre.head? == some candidatePR && info.Kind == .candidate
      if alphaToAlpha || betaToBeta || candidateToCandidate then
        match tag.Pre with
        | p0 :: p1 :: rest =>
          some (.ok { tag with
            Pre := p0 :: { p1 with VersionNum := (p1.VersionNum + 1) % U64 } :: rest })
        | _ => none
      else
        let newTag := if tag.Pre = [] then nextFinalVersion c tag info.Pre10 else tag
        let newTag2 :=
          match info.Kind with
          | .final => newTag
          | k => { newTag with Pre := kindPre k }
        if compareVersion newTag2 tag ≤ 0 then
          some (.error ("\"new\" version ".toList ++ tagCommittish newTag2
            ++ " actually would be an older version than current ".toList
            ++ tagCommittish tag))
        else some (.ok newTag2)

/-- True exactly on a returned (non-panic) error. -/
def isErrO {α : Type} : Option (Except Str α) → Bool
  | some (.error _) => true
  | _ => false

end KRT

namespace KRT

/-! The commit-log parse of `ChangesSince` and the `ClosestFinal` walk. -/

/-- Literal characters of an `Sscanf` format: each must match exactly. -/
def scanLit : Str → Str → Option Str
  | [], s => some s
  | _ :: _, [] => none
  | c :: cs, x :: xs => if x = c then scanLit cs xs else none

/-- One run of spaces in an `Sscanf` format: consumes as many spaces as
possible, and must consume at least one unless the input has ended. -/
def scanSpaceRun : Str → Option Str
  | [] => some []
  | c :: rest => if goIsSpace c then some (dropSpacesL rest) else none

/-- An `%s` verb: skip leading spaces, then read a non-empty run of
non-space characters. -/
def scanTok (s : Str) : Option (Str × Str) :=
  let s' := dropSpacesL s
  let tok := s'.takeWhile (fun c => !goIsSpace c)
  if tok.isEmpty then none else some (tok, s'.drop tok.length)

/-- Model of `fmt.Sscanf(line, "commit %s", &commit)` (trailing input is
ignored once the verb is filled). -/
def scanCommit (line : Str) : Option Str :=
  (scanLit "commit".toList line).bind fun r1 =>
  (scanSpaceRun r1).bind fun r2 =>
  (scanTok r2).map fun tok => tok.1

/-- Model of `fmt.Sscanf(line, "Merge pull request #%s from %s", ...)`. -/
def scanMergePR (line : Str) : Option (Str × Str) :=
  (scanLit "Merge".toList line).bind fun r1 =>
  (scanSpaceRun r1).bind fun r2 =>
  (scanLit "pull".toList r2).bind fun r3 =>
  (scanSpaceRun r3).bind fun r4 =>
  (scanLit "request".toList r4).bind fun r5 =>
  (scanSpaceRun r5).bind fun r6 =>
  (scanLit ['#'] r6).bind fun r7 =>
  (scanTok r7).bind fun pr =>
  (scanSpaceRun pr.2).bind fun r8 =>
  (scanLit "from".toList r8).bind fun r9 =>
  (scanSpaceRun r9).bind fun r10 =>
  (scanTok r10).map fun fork => (pr.1, fork.1)

/-- The resynchronizing line loop of `ChangesSince`, over the list of lines
produced by splitting the raw log on newlines. -/
def chLoop : List Str → ChangeLog → ChangeLog
  | [], log => log
  | l :: rest, log =>
    match scanCommit l with
    | none => chLoop rest log
    | some _ =>
      match rest with
      | [] => log
      | l2 :: rest2 =>
        match scanMergePR l2 with
        | none => chLoop rest2 log
        | some (pr, _) =>
          match rest2 with
          | [] => log
          | l3 :: rest3 =>
            if l3 ≠ [] then chLoop rest3 log
            else
              match rest3 with
              | [] => log
              | title :: rest4 => chLoop rest4 (entryFromCommit log pr title)

/-- Model of `ChangesSince`. -/
def ChangesSince (g : GitM) (branch : ReleaseBranch) (since : Committish) :
    Except Str ChangeLog :=
  match g.mergeCommitsBetween since.render (branchRender branch) with
  | .error e => .error ("unable to list commits since on branch: ".toList ++ e)
  | .ok commitsRaw => .ok (chLoop (splitOnChar '\n' commitsRaw) {})

/-- Joining of lines by newlines (inverse of the split in `ChangesSince`,
used to build raw commit logs from block lists). -/
def joinLines : List Str → Str
  | [] => []
  | [l] => l
  | l :: rest => l ++ '\n' :: joinLines rest

/-- The `for` loop of `ClosestFinal`, with explicit fuel: running out of
fuel (a walk that never finds a candidate) is an error outcome, `none` is
the panic `parseReleaseTag` raises on an empty tag string. The walking
committish is kept as its rendered string. -/
def closestFinalLoop (g : GitM) :
    Nat → Str → Version → Version → Version → Option (Except Str Version)
  | 0, _, _, _, _ => some (.error "walk exhausted the available history".toList)
  | fuel + 1, toCheckC, toCheckTag, current, currentFinal =>
    if toCheckTag.Pre.length ≠ 0 || compareVersion toCheckTag currentFinal = 0 then
      match g.closestTag (toCheckC ++ "~1".toList) with
      | .error e => some (.error e)
      | .ok tagRaw =>
        match parseReleaseTag tagRaw with
        | none => none
        | some (.error _) => closestFinalLoop g fuel tagRaw toCheckTag current currentFinal
        | some (.ok latestTag) =>
          closestFinalLoop g fuel (tagCommittish latestTag) latestTag current currentFinal
    else
      if compareVersion toCheckTag current = 0 || toCheckTag.Pre.length ≠ 0 then
        some (.error "unable to locate previous final release, just found current one".toList)
      else some (.ok toCheckTag)

/-- Model of `ClosestFinal`. -/
def ClosestFinal (g : GitM) (current : Version) (fuel : Nat) :
    Option (Except Str Version) :=
  closestFinalLoop g fuel (tagCommittish current) current current { current with Pre := [] }

end KRT

namespace KRT

/-! Structured commit-log blocks, used to state what the resynchronizing
parse of `ChangesSince` does on well-formed and manual merge commits. -/

/-- One block of `git rev-list --merges --pretty=format:%B` output: either a
well-formed GitHub merge commit (commit line, pull-request line, blank
separator, title line) or a manual merge (commit line, some other line,
blank separator). -/
inductive LogBlock where
  | merged (hash pr fork title : Str)
  | manual (hash rest : Str)
deriving DecidableEq, Repr

/-- The lines a block contributes to the raw log. -/
def blockLines : LogBlock → List Str
  | .merged hash pr fork title =>
    ["commit ".toList ++ hash,
     "Merge pull request #".toList ++ pr ++ " from ".toList ++ fork,
     [], title]
  | .manual hash rest => ["commit ".toList ++ hash, rest, []]

/-- A non-empty whitespace-free token (commit hashes, PR numbers, fork
refs as they appear in real rev-list output). -/
@[reducible] def goodTok (s : Str) : Prop := s ≠ [] ∧ ∀ c ∈ s, goIsSpace c = false

/-- Well-formedness of a block: tokens are tokens, the title is one line,
and a manual merge's second line is not a pull-request line. -/
@[reducible] def blockOK : LogBlock → Prop
  | .merged hash pr fork title =>
    goodTok hash ∧ goodTok pr ∧ goodTok fork ∧ '\n' ∉ title
  | .manual hash rest =>
    goodTok hash ∧ '\n' ∉ rest ∧ scanMergePR rest = none

instance : ∀ b : LogBlock, Decidable (blockOK b)
  | .merged hash pr fork title =>
    inferInstanceAs
      (Decidable (goodTok hash ∧ goodTok pr ∧ goodTok fork ∧ '\n' ∉ title))
  | .manual hash rest =>
    inferInstanceAs
      (Decidable (goodTok hash ∧ '\n' ∉ rest ∧ scanMergePR rest = none))

/-- What one block does to the changelog, per the claim: a well-formed
block classifies its title, a manual merge is skipped. -/
def blockStep : LogBlock → ChangeLog → ChangeLog
  | .merged _ pr _ title, log => entryFromCommit log pr title
  | .manual _ _, log => log

/-- The (pr, title) pairs of the well-formed blocks, in order. -/
def blockEntry : LogBlock → Option (Str × Str)
  | .merged _ pr _ title => some (pr, title)
  | .manual _ _ => none

/-- Entries of the well-formed blocks, in input order. -/
def specEntries (bs : List LogBlock) : List (Str × Str) := bs.filterMap blockEntry

/-- The bucket a category receives: the entries classifying to it, in
input order, with their titles stripped by the classifier. -/
def catEntries (t : PRType) (es : List (Str × Str)) : List LogEntry :=
  (es.filter (fun e => (PRTypeFromTitle e.2).1 == t)).map
    (fun e => ⟨e.1, (PRTypeFromTitle e.2).2⟩)

/-- The changelog the claim predicts for a block list. -/
def specLog (bs : List LogBlock) : ChangeLog :=
  { Breaking := catEntries .breaking (specEntries bs),
    Features := catEntries .feature (specEntries bs),
    Bugs := catEntries .bugfix (specEntries bs),
    Docs := catEntries .docs (specEntries bs),
    Infra := catEntries .infra (specEntries bs),
    Uncategorized := catEntries .uncategorized (specEntries bs) }

end KRT

namespace KRT

/-! General lemmas about the string model. -/

theorem hasPre_iff (s p : Str) : hasPre s p = true ↔ p <+: s := by
  unfold hasPre
  exact List.isPrefixOf_iff_prefix

theorem isPre_append (p t : Str) : hasPre (p ++ t) p = true := by
  rw [hasPre_iff]
  exact List.prefix_append p t

theorem isPre_cases {m t p : Str} (h : hasPre (m ++ t) p = true) :
    hasPre m p = true ∨ hasPre p m = true := by
  rw [hasPre_iff] at h
  rw [hasPre_iff, hasPre_iff]
  exact List.prefix_or_prefix_of_prefix h (List.prefix_append m t)

theorem noPre_append {m p : Str} (t : Str) (h1 : hasPre m p = false)
    (h2 : hasPre p m = false) : hasPre (m ++ t) p = false := by
  cases hc : hasPre (m ++ t) p with
  | false => rfl
  | true =>
    rcases isPre_cases hc with h | h
    · rw [h1] at h
      exact absurd h (by simp)
    · rw [h2] at h
      exact absurd h (by simp)

theorem trimPre_append (p t : Str) : trimPre (p ++ t) p = t := by
  unfold trimPre
  rw [isPre_append]
  simp [List.drop_left]

theorem trimPre_none {s p : Str} (h : hasPre s p = false) : trimPre s p = s := by
  unfold trimPre
  simp [h]

theorem dropWhile_append (p : Char → Bool) (a b : Str) :
    (a ++ b).dropWhile p =
      if (a.dropWhile p).isEmpty then b.dropWhile p else a.dropWhile p ++ b := by
  induction a with
  | nil => simp
  | cons c cs ih =>
    by_cases hc : p c
    · simpa [List.dropWhile_cons, hc] using ih
    · simp [List.dropWhile_cons, hc]

theorem dropWhile_idem (p : Char → Bool) (l : Str) :
    (l.dropWhile p).dropWhile p = l.dropWhile p := by
  induction l with
  | nil => rfl
  | cons c cs ih =>
    by_cases hc : p c
    · simpa [List.dropWhile_cons, hc] using ih
    · simp [List.dropWhile_cons, hc]

theorem trimRight_concat {M : Str} (T : Str) (h : trimRightL M = M) :
    trimRightL (M ++ T) = M ++ trimRightL T := by
  have hM : M.reverse.dropWhile goIsSpace = M.reverse := by
    have h2 := congrArg List.reverse h
    simpa [trimRightL] using h2
  unfold trimRightL
  rw [List.reverse_append, dropWhile_append]
  by_cases he : (T.reverse.dropWhile goIsSpace).isEmpty
  · rw [if_pos he, hM]
    have h3 : T.reverse.dropWhile goIsSpace = [] := by simpa using he
    simp [h3]
  · rw [if_neg he]
    simp

theorem dropSpaces_cons_keep {c : Char} (h : goIsSpace c = false) (l : Str) :
    dropSpacesL (c :: l) = c :: l := by
  simp [dropSpacesL, List.dropWhile_cons, h]

theorem goTrim_concat {M : Str} {c : Char} {M' : Str} (T : Str)
    (hM : M = c :: M') (hc : goIsSpace c = false) (ht : trimRightL M = M) :
    goTrim (M ++ T) = M ++ trimRightL T := by
  unfold goTrim
  rw [trimRight_concat T ht, hM]
  exact dropSpaces_cons_keep hc _

theorem trimRight_single {c : Char} (h : goIsSpace c = false) :
    trimRightL [c] = [c] := by
  simp [trimRightL, List.dropWhile_cons, h]

theorem trimRight_cons_keep {c : Char} (h : goIsSpace c = false) (l : Str) :
    trimRightL (c :: l) = c :: trimRightL l := by
  have h0 : (c :: l) = [c] ++ l := rfl
  rw [h0, trimRight_concat l (trimRight_single h)]
  rfl

theorem trimRight_idem (s : Str) : trimRightL (trimRightL s) = trimRightL s := by
  unfold trimRightL
  rw [List.reverse_reverse, dropWhile_idem]

theorem goTrim_trimRight (s : Str) : goTrim (trimRightL s) = goTrim s := by
  unfold goTrim
  rw [trimRight_idem]

theorem trimRight_isPre (s : Str) : trimRightL s <+: s := by
  unfold trimRightL
  have h1 : s.reverse.dropWhile goIsSpace <:+ s.reverse := List.dropWhile_suffix _
  have h2 := List.reverse_prefix.mpr h1
  rwa [List.reverse_reverse] at h2

theorem hasPre_trimRight {q T : Str} (h : hasPre T q = false) :
    hasPre (trimRightL T) q = false := by
  cases hq : hasPre (trimRightL T) q with
  | false => rfl
  | true =>
    have h3 : q <+: T := ((hasPre_iff _ q).mp hq).trans (trimRight_isPre T)
    rw [← hasPre_iff T q] at h3
    rw [h] at h3
    exact absurd h3 (by simp)

theorem vs_strip (X : Str) : trimPre ('\uFE0F' :: X) vs16 = X := by
  have h : hasPre ('\uFE0F' :: X) vs16 = true := by
    unfold hasPre vs16
    simp [List.isPrefixOf]
  unfold trimPre
  rw [h]
  rfl

theorem vs_none {c : Char} (X : Str) (h : c ≠ '\uFE0F') : hasPre (c :: X) vs16 = false := by
  unfold hasPre vs16
  simp [List.isPrefixOf]
  intro hc
  exact absurd hc.symm h

theorem vsTrim_comm (T : Str) :
    goTrim (trimPre (trimRightL T) vs16) = goTrim (trimPre T vs16) := by
  match T with
  | [] => rfl
  | c :: rest =>
    by_cases hc : c = '\uFE0F'
    · subst hc
      rw [trimRight_cons_keep (by decide)]
      rw [vs_strip, vs_strip, goTrim_trimRight]
    · have h3 : hasPre (trimRightL (c :: rest)) vs16 = false :=
        hasPre_trimRight (vs_none rest hc)
      rw [trimPre_none h3, trimPre_none (vs_none rest hc), goTrim_trimRight]

end KRT

namespace KRT

/-! Lemmas about decimal rendering. -/

theorem natDecAux_fuel : ∀ f1 f2 n : Nat, n < f1 → n < f2 → natDecAux f1 n = natDecAux f2 n := by
  intro f1
  induction f1 with
  | zero => intro f2 n h1 _; omega
  | succ f1 ih =>
    intro f2 n h1 h2
    cases f2 with
    | zero => omega
    | succ f2 =>
      by_cases h10 : n < 10
      · simp [natDecAux, h10]
      · have hpos : 0 < n := by omega
        have hdiv : n / 10 < n := Nat.div_lt_self hpos (by omega)
        simp only [natDecAux, if_neg h10]
        rw [ih f2 (n / 10) (by omega) (by omega)]

theorem natDec_lt10 {n : Nat} (h : n < 10) : natDec n = [Nat.digitChar n] := by
  simp [natDec, natDecAux, h]

theorem natDec_step {n : Nat} (h : 10 ≤ n) :
    natDec n = natDec (n / 10) ++ [Nat.digitChar (n % 10)] := by
  have hdiv : n / 10 < n := Nat.div_lt_self (by omega) (by omega)
  show natDecAux (n + 1) n = _
  rw [natDecAux]
  rw [if_neg (by omega)]
  rw [natDecAux_fuel n (n / 10 + 1) (n / 10) (by omega) (by omega)]
  rfl

theorem digitChar_digit {d : Nat} (h : d < 10) :
    isDigitC (Nat.digitChar d) = true ∧ digitVal (Nat.digitChar d) = d := by
  interval_cases d <;> exact ⟨by decide, by decide⟩

theorem digitChar_ne_zero {d : Nat} (h1 : 0 < d) (h2 : d < 10) : Nat.digitChar d ≠ '0' := by
  interval_cases d <;> decide

theorem digitsVal_append_one (a : Str) (c : Char) :
    digitsVal (a ++ [c]) = 10 * digitsVal a + digitVal c := by
  unfold digitsVal
  rw [List.foldl_append]
  rfl

theorem natDec_spec : ∀ n : Nat,
    natDec n ≠ [] ∧ (∀ c ∈ natDec n, isDigitC c = true) ∧ digitsVal (natDec n) = n := by
  intro n
  induction n using Nat.strong_induction_on with
  | _ n ih =>
    by_cases h10 : n < 10
    · rw [natDec_lt10 h10]
      refine ⟨by simp, ?_, ?_⟩
      · intro c hc
        rw [List.mem_singleton] at hc
        subst hc
        exact (digitChar_digit h10).1
      · show digitsVal ([] ++ [Nat.digitChar n]) = n
        rw [digitsVal_append_one]
        have := (digitChar_digit h10).2
        simp [digitsVal, this]
    · have hdiv : n / 10 < n := Nat.div_lt_self (by omega) (by omega)
      obtain ⟨hne, hdig, hval⟩ := ih (n / 10) hdiv
      rw [natDec_step (by omega)]
      refine ⟨by simp, ?_, ?_⟩
      · intro c hc
        rw [List.mem_append] at hc
        rcases hc with hc | hc
        · exact hdig c hc
        · rw [List.mem_singleton] at hc
          subst hc
          exact (digitChar_digit (Nat.mod_lt n (by omega))).1
      · rw [digitsVal_append_one, hval, (digitChar_digit (Nat.mod_lt n (by omega))).2]
        omega

theorem natDec_head_ne_zero : ∀ n : Nat, 0 < n →
    ∃ c t, natDec n = c :: t ∧ c ≠ '0' := by
  intro n
  induction n using Nat.strong_induction_on with
  | _ n ih =>
    intro hpos
    by_cases h10 : n < 10
    · exact ⟨Nat.digitChar n, [], natDec_lt10 h10, digitChar_ne_zero hpos h10⟩
    · have hdiv : n / 10 < n := Nat.div_lt_self (by omega) (by omega)
      have hdpos : 0 < n / 10 := Nat.div_pos (by omega) (by omega)
      obtain ⟨c, t, heq, hne⟩ := ih (n / 10) hdiv hdpos
      refine ⟨c, t ++ [Nat.digitChar (n % 10)], ?_, hne⟩
      rw [natDec_step (by omega), heq]
      rfl

end KRT

namespace KRT

/-- C10: `parseReleaseTag` is not total at its interface: on the empty tag
string it indexes byte 0 without a length guard and panics (modelled as
`none`) instead of returning the format error; on every non-empty input it
returns normally, and any returned `ReleaseTag` passes `Validate`. -/
theorem c10_parse_release_tag_partiality :
    parseReleaseTag ([] : Str) = none ∧
    (∀ (c : Char) (rest : Str), (parseReleaseTag (c :: rest)).isSome = true) ∧
    (∀ (s : Str) (v : Version), parseReleaseTag s = some (.ok v) → tagValidate v = .ok ()) := by
  refine ⟨rfl, fun c rest => rfl, ?_⟩
  intro s v h
  match s with
  | [] => simp [parseReleaseTag] at h
  | c :: rest =>
    simp only [parseReleaseTag, Option.some_inj] at h
    split at h
    · exact absurd h (by simp)
    · split at h
      · exact absurd h (by simp)
      · split at h
        · exact absurd h (by simp)
        · rename_i v' hval
          rw [Except.ok.injEq] at h
          subst h
          exact hval

/-- C10 witness: the empty tag panics, a well-formed tag parses and
validates, and a non-version tag returns the format error. -/
theorem c10_parse_release_tag_partiality_witness :
    (parseReleaseTag ("v1.2.3-alpha.1".toList)).isSome = true ∧
    tagValidate ⟨1, 2, 3, [alphaPR, ⟨[], 1, true⟩], []⟩ = .ok () := by
  constructor
  · exact c10_parse_release_tag_partiality.2.1 'v' "1.2.3-alpha.1".toList
  · exact c10_parse_release_tag_partiality.2.2 ("v1.2.3-alpha.1".toList)
      ⟨1, 2, 3, [alphaPR, ⟨[], 1, true⟩], []⟩ (by decide)

/-- C1: the code contradicts its own comment (`alpha --> alpha || beta -->
beta || rc --> rc` is meant to be the "easy" ordinal-increment case): the
same-kind test for release candidates compares against the prerelease
string "candidate" while actual rc tags carry "rc", so requesting an rc
release when the current tag is `v2.0.0-rc.0` falls through to the reset
path and fails the ordering check instead of producing `v2.0.0-rc.1`. -/
theorem c1_rc_to_rc_is_rejected :
    isErrO (ExpectedNextVersion
      { Breaking := [⟨"33".toList, "something major".toList⟩],
        Bugs := [⟨"55".toList, "some bugfix".toList⟩] }
      (.tag ⟨2, 0, 0, [rcPR, num0PR], []⟩) ⟨.candidate, true⟩) = true ∧
    ExpectedNextVersion
      { Breaking := [⟨"33".toList, "something major".toList⟩],
        Bugs := [⟨"55".toList, "some bugfix".toList⟩] }
      (.tag ⟨2, 0, 0, [rcPR, num0PR], []⟩) ⟨.candidate, true⟩ ≠
      some (.ok ⟨2, 0, 0, [rcPR, ⟨[], 1, true⟩], []⟩) := by
  constructor
  · decide
  · decide

/-- C2: in the branch-aliasing cases for a `release-1` branch (and
similarly `release-X`), the recursive previous-line branch takes the
current branch's possibly-cleared `UseUpstream` flag, not the caller's
original setting: with the original setting `true`, no upstream on
`release-1` but an upstream on `release-0.6`, the recursion queries plain
`release-0.6` (finding v0.6.3) instead of `release-0.6@{u}` (which holds
v0.6.9), contradicting both the claim and the sibling 0.Y case, which
does use the original setting. -/
theorem c2_branch1_recursion_ignores_original_upstream :
    (CurrentVersion
      { closestTag := fun q =>
          if q = "release-1".toList then .ok "v0.6.0".toList
          else if q = "release-0.6@\x7bu\x7d".toList then .ok "v0.6.9".toList
          else if q = "release-0.6".toList then .ok "v0.6.3".toList
          else .error "no tag".toList,
        firstCommit := fun _ => .error "none".toList,
        hasUpstream := fun q =>
          if q = "release-0.6@\x7bu\x7d".toList then .ok ()
          else .error "no upstream".toList,
        mergeCommitsBetween := fun _ _ => .error "unused".toList }
      ⟨⟨1, 0, 0, [], []⟩, true⟩).1 =
      some (.ok (.tag ⟨0, 6, 3, [], []⟩)) := by
  decide

end KRT

namespace KRT

/-- C6: for a requested final release, `ExpectedNextVersion` strips the
prerelease of a prerelease tag and changes nothing else; on a final tag it
clears prerelease and build metadata and bumps exactly one component:
major on breaking changes (minor instead when major is 0 and pre10 is
set), else minor on features, else patch. -/
theorem c6_final_release_rules (c : ChangeLog) (tag : Version) (pre10 : Bool) :
    (tag.Pre ≠ [] → ExpectedNextVersion c (.tag tag) ⟨.final, pre10⟩ =
      some (.ok { tag with Pre := [] })) ∧
    (tag.Pre = [] → c.Breaking ≠ [] → ¬(tag.Major = 0 ∧ pre10 = true) →
      ExpectedNextVersion c (.tag tag) ⟨.final, pre10⟩ =
        some (.ok ⟨(tag.Major + 1) % U64, 0, 0, [], []⟩)) ∧
    (tag.Pre = [] → c.Breaking ≠ [] → tag.Major = 0 → pre10 = true →
      ExpectedNextVersion c (.tag tag) ⟨.final, pre10⟩ =
        some (.ok ⟨0, (tag.Minor + 1) % U64, 0, [], []⟩)) ∧
    (tag.Pre = [] → c.Breaking = [] → c.Features ≠ [] →
      ExpectedNextVersion c (.tag tag) ⟨.final, pre10⟩ =
        some (.ok ⟨tag.Major, (tag.Minor + 1) % U64, 0, [], []⟩)) ∧
    (tag.Pre = [] → c.Breaking = [] → c.Features = [] →
      ExpectedNextVersion c (.tag tag) ⟨.final, pre10⟩ =
        some (.ok ⟨tag.Major, tag.Minor, (tag.Patch + 1) % U64, [], []⟩)) := by
  refine ⟨?_, ?_, ?_, ?_, ?_⟩
  · intro h
    have hl : 0 < tag.Pre.length := List.length_pos.mpr h
    simp [ExpectedNextVersion, hl]
  · intro hp hb hm
    have hb' : 0 < c.Breaking.length := List.length_pos.mpr hb
    have hcond : (tag.Major = 0 && pre10) = false := by
      by_cases h0 : tag.Major = 0
      · have hp10 : pre10 = false := by
          cases pre10
          · rfl
          · exact absurd ⟨h0, rfl⟩ hm
        simp [h0, hp10]
      · simp [h0]
    simp [ExpectedNextVersion, nextFinalVersion, hp, hb', hcond, incMajor]
  · intro hp hb h0 hp10
    have hb' : 0 < c.Breaking.length := List.length_pos.mpr hb
    simp [ExpectedNextVersion, nextFinalVersion, hp, hb', h0, hp10, incMinor]
  · intro hp hb hf
    have hf' : 0 < c.Features.length := List.length_pos.mpr hf
    simp [ExpectedNextVersion, nextFinalVersion, hp, hb, hf', incMinor]
  · intro hp hb hf
    simp [ExpectedNextVersion, nextFinalVersion, hp, hb, hf, incPatch]

/-- C6 witness: the rules evaluated at the specification's examples:
`v2.0.0-rc.4` promotes to `v2.0.0`; `v1.6.3` with a breaking change goes
to `v2.0.0`; `v0.6.3` with a breaking change and pre10 goes to `v0.7.0`;
features bump minor and anything else bumps the patch. -/
theorem c6_final_release_rules_witness :
    ExpectedNextVersion { Breaking := [⟨"33".toList, "b".toList⟩] }
      (.tag ⟨2, 0, 0, [rcPR, ⟨[], 4, true⟩], []⟩) ⟨.final, true⟩ =
      some (.ok ⟨2, 0, 0, [], []⟩) ∧
    ExpectedNextVersion { Breaking := [⟨"33".toList, "b".toList⟩] }
      (.tag ⟨1, 6, 3, [], []⟩) ⟨.final, true⟩ = some (.ok ⟨2, 0, 0, [], []⟩) ∧
    ExpectedNextVersion { Breaking := [⟨"33".toList, "b".toList⟩] }
      (.tag ⟨0, 6, 3, [], []⟩) ⟨.final, true⟩ = some (.ok ⟨0, 7, 0, [], []⟩) ∧
    ExpectedNextVersion { Features := [⟨"44".toList, "f".toList⟩] }
      (.tag ⟨1, 6, 3, [], []⟩) ⟨.final, true⟩ = some (.ok ⟨1, 7, 0, [], []⟩) ∧
    ExpectedNextVersion { Bugs := [⟨"55".toList, "g".toList⟩] }
      (.tag ⟨1, 6, 3, [], []⟩) ⟨.final, true⟩ = some (.ok ⟨1, 6, 4, [], []⟩) := by
  refine ⟨?_, ?_, ?_, ?_, ?_⟩
  · have h := (c6_final_release_rules { Breaking := [⟨"33".toList, "b".toList⟩] }
      ⟨2, 0, 0, [rcPR, ⟨[], 4, true⟩], []⟩ true).1 (by simp)
    exact h
  · have h := (c6_final_release_rules { Breaking := [⟨"33".toList, "b".toList⟩] }
      ⟨1, 6, 3, [], []⟩ true).2.1 rfl (by simp) (by simp)
    rw [h]
    decide
  · have h := (c6_final_release_rules { Breaking := [⟨"33".toList, "b".toList⟩] }
      ⟨0, 6, 3, [], []⟩ true).2.2.1 rfl (by simp) rfl rfl
    rw [h]
    decide
  · have h := (c6_final_release_rules { Features := [⟨"44".toList, "f".toList⟩] }
      ⟨1, 6, 3, [], []⟩ true).2.2.2.1 rfl rfl (by simp)
    rw [h]
    decide
  · have h := (c6_final_release_rules { Bugs := [⟨"55".toList, "g".toList⟩] }
      ⟨1, 6, 3, [], []⟩ true).2.2.2.2 rfl rfl rfl
    rw [h]
    decide

/-- C8 (amended): `LatestRelease` falls back to the branch root commit when
the closest-tag query fails, combines both failures when the root query
also fails, hard-errors on a non-empty tag that does not parse and
validate, and hard-errors under `verify` on a tag that does not belong to
the branch. (The original claim is falsified by the empty tag string,
which panics instead of erroring: see the counterexample.) -/
theorem c8_latest_release_errors (g : GitM) (b : ReleaseBranch) (chk : Bool) :
    (∀ e c, g.closestTag (branchRender b) = .error e →
      g.firstCommit (branchRender b) = .ok c →
      LatestRelease g b chk = some (.ok (.firstC c b))) ∧
    (∀ e e2, g.closestTag (branchRender b) = .error e →
      g.firstCommit (branchRender b) = .error e2 →
      LatestRelease g b chk = some (.error ("unable to grab first commit on branch (".toList
        ++ e2 ++ "), also unable to fetch most recent tag: ".toList ++ e))) ∧
    (∀ raw pe, g.closestTag (branchRender b) = .ok raw →
      parseReleaseTag raw = some (.error pe) →
      isErrO (LatestRelease g b chk) = true) ∧
    (∀ raw t, g.closestTag (branchRender b) = .ok raw →
      parseReleaseTag raw = some (.ok t) →
      (t.Major ≠ b.ver.Major ∨ (t.Major = 0 ∧ t.Minor ≠ b.ver.Minor)) →
      isErrO (LatestRelease g b true) = true) := by
  refine ⟨?_, ?_, ?_, ?_⟩
  · intro e c h1 h2
    simp [LatestRelease, h1, h2]
  · intro e e2 h1 h2
    simp [LatestRelease, h1, h2]
  · intro raw pe h1 h2
    simp [LatestRelease, h1, h2, isErrO]
  · intro raw t h1 h2 h3
    simp [LatestRelease, h1, h2, VerifyTagBelongs]
    rw [if_pos h3]
    simp [isErrO]

/-- C8 counterexample: a closest-tag query that succeeds with the empty tag
string makes `LatestRelease` panic (the unguarded byte-0 index in
`parseReleaseTag`) rather than return the hard parse error the claim
describes. -/
theorem c8_counterexample :
    LatestRelease
      { closestTag := fun _ => .ok ([] : Str),
        firstCommit := fun _ => .error "e".toList,
        hasUpstream := fun _ => .error "e".toList,
        mergeCommitsBetween := fun _ _ => .error "e".toList }
      ⟨⟨0, 6, 0, [], []⟩, false⟩ false = none := by
  rfl

/-- C8 witness: the four amended behaviors at concrete inputs: fallback to
the root commit, combined double failure, hard error on the malformed tag
"bogus", and hard error under verify for `v0.6.7` on `release-1`. -/
theorem c8_latest_release_errors_witness :
    LatestRelease
      { closestTag := fun _ => .error "no tag found".toList,
        firstCommit := fun _ => .ok "abcdef".toList,
        hasUpstream := fun _ => .error "e".toList,
        mergeCommitsBetween := fun _ _ => .error "e".toList }
      ⟨⟨0, 6, 0, [], []⟩, false⟩ false =
      some (.ok (.firstC "abcdef".toList ⟨⟨0, 6, 0, [], []⟩, false⟩)) ∧
    LatestRelease
      { closestTag := fun _ => .error "no tag found".toList,
        firstCommit := fun _ => .error "fatal".toList,
        hasUpstream := fun _ => .error "e".toList,
        mergeCommitsBetween := fun _ _ => .error "e".toList }
      ⟨⟨0, 6, 0, [], []⟩, false⟩ false =
      some (.error ("unable to grab first commit on branch (".toList
        ++ "fatal".toList ++ "), also unable to fetch most recent tag: ".toList
        ++ "no tag found".toList)) ∧
    isErrO (LatestRelease
      { closestTag := fun _ => .ok "bogus".toList,
        firstCommit := fun _ => .ok "abcdef".toList,
        hasUpstream := fun _ => .error "e".toList,
        mergeCommitsBetween := fun _ _ => .error "e".toList }
      ⟨⟨0, 6, 0, [], []⟩, false⟩ false) = true ∧
    isErrO (LatestRelease
      { closestTag := fun _ => .ok "v0.6.7".toList,
        firstCommit := fun _ => .ok "abcdef".toList,
        hasUpstream := fun _ => .error "e".toList,
        mergeCommitsBetween := fun _ _ => .error "e".toList }
      ⟨⟨1, 0, 0, [], []⟩, false⟩ true) = true := by
  refine ⟨?_, ?_, ?_, ?_⟩
  · exact (c8_latest_release_errors _ _ false).1 "no tag found".toList "abcdef".toList rfl rfl
  · exact (c8_latest_release_errors _ _ false).2.1 "no tag found".toList "fatal".toList rfl rfl
  · exact (c8_latest_release_errors _ _ false).2.2.1 "bogus".toList
      "not a version tag (vX.Y.Z)".toList rfl (by decide)
  · exact (c8_latest_release_errors _ _ true).2.2.2 "v0.6.7".toList ⟨0, 6, 7, [], []⟩
      rfl (by decide) (by decide)

end KRT

namespace KRT

/-- C3 counterexample: `release-0.01` is accepted by `ReleaseFromBranch`
(the regular expression allows leading zeroes) yet renders back as
`release-0.1`, so the round trip fails on an accepted branch string. -/
theorem c3_counterexample :
    ReleaseFromBranch "release-0.01".toList = .ok ⟨⟨0, 1, 0, [], []⟩, false⟩ ∧
    branchRender ⟨⟨0, 1, 0, [], []⟩, false⟩ = "release-0.1".toList ∧
    "release-0.1".toList ≠ "release-0.01".toList := by
  refine ⟨by decide, by decide, by decide⟩

/-- C3 (amended): the round trip `render (parse s) = s` holds for the
canonical strings of the two recognized shapes, `release-X` and
`release-0.Y` with the number written in canonical decimal (no leading
zeroes), for every 1 ≤ n < 2^64. -/
theorem c3_roundtrip_canonical (n : Nat) (h1 : 1 ≤ n) (h2 : n < U64) :
    (ReleaseFromBranch ("release-".toList ++ natDec n) = .ok ⟨⟨n, 0, 0, [], []⟩, false⟩ ∧
     branchRender ⟨⟨n, 0, 0, [], []⟩, false⟩ = "release-".toList ++ natDec n) ∧
    (ReleaseFromBranch ("release-0.".toList ++ natDec n) = .ok ⟨⟨0, n, 0, [], []⟩, false⟩ ∧
     branchRender ⟨⟨0, n, 0, [], []⟩, false⟩ = "release-0.".toList ++ natDec n) := by
  obtain ⟨hne, hdig, hval⟩ := natDec_spec n
  obtain ⟨c, t, hD, hc0⟩ := natDec_head_ne_zero n h1
  have hn0 : ¬(n = 0) := by omega
  have hdrop : ∀ X : Str, ("release-".toList ++ X).drop 8 = X := by
    intro X
    exact List.drop_left "release-".toList X
  have hpre1 : ∀ X : Str,
      hasPre ('r' :: 'e' :: 'l' :: 'e' :: 'a' :: 's' :: 'e' :: '-' :: X)
        ['r', 'e', 'l', 'e', 'a', 's', 'e', '-'] = true := by
    intro X
    exact isPre_append "release-".toList X
  have hpre2 : ∀ X : Str, hasPre ('0' :: '.' :: X) ['0', '.'] = true := by
    intro X
    exact isPre_append ['0', '.'] X
  have hemp : (natDec n).isEmpty = false := by rw [hD]; rfl
  have hall : (natDec n).all isDigitC = true := by
    rw [List.all_eq_true]
    exact hdig
  have hparse : parseUint64 (natDec n) = .ok n := by
    simp [parseUint64, hemp, hall, hval, h2]
  refine ⟨⟨?_, ?_⟩, ⟨?_, ?_⟩⟩
  · have hno : hasPre (natDec n) ['0', '.'] = false := by
      rw [hD]
      unfold hasPre
      simp [List.isPrefixOf]
      intro hc
      exact absurd hc.symm hc0
    simp [ReleaseFromBranch, isPre_append, hpre1, hdrop, hno, hemp, hall, hparse, hn0]
  · simp [branchRender, hn0]
  · have hsplit : ("release-0.".toList : Str) ++ natDec n =
        "release-".toList ++ (['0', '.'] ++ natDec n) := by
      rfl
    have hdrop2 : ((['0', '.'] : Str) ++ natDec n).drop 2 = natDec n := rfl
    rw [hsplit]
    simp [ReleaseFromBranch, isPre_append, hpre1, hpre2, hdrop, hdrop2, hemp, hall, hparse, hn0]
  · simp [branchRender]

/-- C3 witness: the round trip evaluated at `release-7` and `release-0.7`. -/
theorem c3_roundtrip_canonical_witness :
    (ReleaseFromBranch ("release-".toList ++ natDec 7) = .ok ⟨⟨7, 0, 0, [], []⟩, false⟩ ∧
     branchRender ⟨⟨7, 0, 0, [], []⟩, false⟩ = "release-".toList ++ natDec 7) ∧
    (ReleaseFromBranch ("release-0.".toList ++ natDec 7) = .ok ⟨⟨0, 7, 0, [], []⟩, false⟩ ∧
     branchRender ⟨⟨0, 7, 0, [], []⟩, false⟩ = "release-0.".toList ++ natDec 7) :=
  c3_roundtrip_canonical 7 (by decide) (by decide)

end KRT

namespace KRT

theorem strCompare_refl (s : Str) : strCompare s s = 0 := by
  induction s with
  | nil => rfl
  | cons c cs ih => simp [strCompare, ih]

theorem prCompare_refl (p : PRVersion) : prCompare p p = 0 := by
  unfold prCompare
  by_cases h : p.IsNum <;> simp [h, strCompare_refl]

/-- Shapes a validated tag's prerelease list can take. -/
theorem validate_shape {tag : Version} (h : tagValidate tag = .ok ()) :
    tag.Pre = [] ∨ ∃ a b, tag.Pre = [a, b] ∧ a.IsNum = false ∧ b.IsNum = true := by
  match hp : tag.Pre with
  | [] => exact Or.inl rfl
  | [a, b] =>
    unfold tagValidate at h
    rw [hp] at h
    replace h : (if (a.IsNum || !b.IsNum) = true then
        Except.error "invalid pre-release info (must be -\x7balpha,beta,rc\x7d.version)".toList
        else (Except.ok () : Except Str Unit)) = Except.ok () := h
    by_cases hcond : (a.IsNum || !b.IsNum) = true
    · rw [if_pos hcond] at h
      exact absurd h (by simp)
    · simp only [Bool.or_eq_true, Bool.not_eq_true', not_or] at hcond
      refine Or.inr ⟨a, b, rfl, ?_, ?_⟩
      · simpa using hcond.1
      · simpa using hcond.2
  | [a] =>
    unfold tagValidate at h
    rw [hp] at h
    replace h : (Except.error
        "invalid pre-release info (must be -\x7balpha,beta,rc\x7d.version)".toList
        : Except Str Unit) = Except.ok () := h
    exact absurd h (by simp)
  | a :: b :: x :: rest =>
    unfold tagValidate at h
    rw [hp] at h
    replace h : (Except.error
        "invalid pre-release info (must be -\x7balpha,beta,rc\x7d.version)".toList
        : Except Str Unit) = Except.ok () := h
    exact absurd h (by simp)

/-- C4 counterexample: on the same-kind prerelease path the ordinal
increment is an unchecked `uint64` increment, so at ordinal 2^64 - 1 it
wraps to 0 and the function returns a strictly older version with no
error, contradicting the claim as stated. -/
theorem c4_counterexample :
    ExpectedNextVersion {} (.tag ⟨1, 0, 0, [alphaPR, ⟨[], U64 - 1, true⟩], []⟩)
      ⟨.alpha, true⟩ = some (.ok ⟨1, 0, 0, [alphaPR, ⟨[], 0, true⟩], []⟩) ∧
    compareVersion ⟨1, 0, 0, [alphaPR, ⟨[], 0, true⟩], []⟩
      ⟨1, 0, 0, [alphaPR, ⟨[], U64 - 1, true⟩], []⟩ < 0 := by
  constructor
  · decide
  · decide

/-- C4 (amended): for every validated current tag whose prerelease ordinal
is below 2^64 - 1 and every requested prerelease kind, a successful
`ExpectedNextVersion` result strictly exceeds the current tag under the
semver ordering (equivalently, a computed non-newer version is returned
with an error); in particular requesting alpha when the current tag is a
beta prerelease always errors. -/
theorem c4_ordering_guard (c : ChangeLog) (tag : Version) (k : ReleaseKind) (p10 : Bool) :
    (∀ res, k ≠ .final → tagValidate tag = .ok () →
      (∀ a b, tag.Pre = [a, b] → b.VersionNum + 1 < U64) →
      ExpectedNextVersion c (.tag tag) ⟨k, p10⟩ = some (.ok res) →
      0 < compareVersion res tag) ∧
    (∀ b, tag.Pre = [betaPR, b] →
      isErrO (ExpectedNextVersion c (.tag tag) ⟨.alpha, p10⟩) = true) := by
  constructor
  · intro res hk hv hov h
    simp only [ExpectedNextVersion] at h
    rw [if_neg (by simpa using hk)] at h
    by_cases heasy : (0 < tag.Pre.length && tag.Pre.head? == some alphaPR && k == ReleaseKind.alpha
        || 0 < tag.Pre.length && tag.Pre.head? == some betaPR && k == ReleaseKind.beta
        || 0 < tag.Pre.length && tag.Pre.head? == some candidatePR
          && k == ReleaseKind.candidate) = true
    · rw [if_pos heasy] at h
      rcases validate_shape hv with hnil | ⟨a, b, hab, _, hbN⟩
      · rw [hnil] at heasy
        simp at heasy
      · rw [hab] at h
        simp only [Option.some_inj, Except.ok.injEq] at h
        subst h
        have hmod : (b.VersionNum + 1) % U64 = b.VersionNum + 1 :=
          Nat.mod_eq_of_lt (hov a b hab)
        obtain ⟨M, m, pa, Pre, Bld⟩ := tag
        simp only at hab
        subst hab
        simp [compareVersion, preCompare, prCompare_refl, prCompare, hbN, hmod]
    · rw [if_neg heasy] at h
      repeat' split at h
      all_goals
        first
        | (simp only [Option.some_inj, Except.ok.injEq] at h
           subst h
           omega)
        | simp at h
  · intro b hPre
    obtain ⟨M, m, pa, Pre, Bld⟩ := tag
    simp only at hPre
    subst hPre
    have h1 : (some betaPR == some alphaPR) = false := by decide
    have h2 : (some betaPR == some candidatePR) = false := by decide
    have h3 : (ReleaseKind.alpha == ReleaseKind.beta) = false := by decide
    have hpr : prCompare alphaPR betaPR = -1 := by decide
    simp [ExpectedNextVersion, h1, h2, h3, compareVersion, preCompare, kindPre, hpr, isErrO]

/-- C4 witness: with current `v2.0.0-beta.0`, requesting beta yields
`v2.0.0-beta.1`, which strictly exceeds the current tag; requesting alpha
yields an error. -/
theorem c4_ordering_guard_witness :
    0 < compareVersion ⟨2, 0, 0, [betaPR, ⟨[], 1, true⟩], []⟩ ⟨2, 0, 0, [betaPR, num0PR], []⟩ ∧
    isErrO (ExpectedNextVersion {} (.tag ⟨2, 0, 0, [betaPR, num0PR], []⟩) ⟨.alpha, true⟩)
      = true := by
  constructor
  · refine (c4_ordering_guard {} ⟨2, 0, 0, [betaPR, num0PR], []⟩ .beta true).1
      ⟨2, 0, 0, [betaPR, ⟨[], 1, true⟩], []⟩ (by decide) (by decide) ?_ (by decide)
    intro a b hab
    rw [List.cons.injEq, List.cons.injEq] at hab
    rw [hab.2.1.symm]
    decide
  · exact (c4_ordering_guard {} ⟨2, 0, 0, [betaPR, num0PR], []⟩ .alpha true).2 num0PR rfl

end KRT

namespace KRT

theorem preCompare_refl (l : List PRVersion) : preCompare l l = 0 := by
  induction l with
  | nil => rfl
  | cons p ps ih => simp [preCompare, prCompare_refl, ih]

theorem compareVersion_refl (v : Version) : compareVersion v v = 0 := by
  rcases hp : v.Pre with _ | ⟨a, as⟩ <;> simp [compareVersion, hp, preCompare_refl]

/-- A tag returned by `parseReleaseTag` passed `Validate`. -/
theorem parse_ok_validate {raw : Str} {v : Version}
    (h : parseReleaseTag raw = some (.ok v)) : tagValidate v = .ok () := by
  match raw with
  | [] => simp [parseReleaseTag] at h
  | c :: rest =>
    simp only [parseReleaseTag, Option.some_inj] at h
    split at h
    · exact absurd h (by simp)
    · split at h
      · exact absurd h (by simp)
      · split at h
        · exact absurd h (by simp)
        · rename_i v' hval
          rw [Except.ok.injEq] at h
          subst h
          exact hval

/-- Loop invariant of the `ClosestFinal` walk: a successful result is the
initial tag or a parsed one, has no prerelease, and differs (under semver
comparison) from both `current` and `currentFinal`. -/
theorem closestFinalLoop_ok {g : GitM} :
    ∀ (fuel : Nat) (cC : Str) (cT current cF : Version) (res : Version),
    closestFinalLoop g fuel cC cT current cF = some (.ok res) →
    (res = cT ∨ ∃ raw, parseReleaseTag raw = some (.ok res)) ∧
    res.Pre = [] ∧ compareVersion res current ≠ 0 ∧ compareVersion res cF ≠ 0 := by
  intro fuel
  induction fuel with
  | zero =>
    intro cC cT current cF res h
    exact absurd h (by simp [closestFinalLoop])
  | succ fuel ih =>
    intro cC cT current cF res h
    unfold closestFinalLoop at h
    by_cases hcond : (cT.Pre.length ≠ 0 || compareVersion cT cF = 0) = true
    · rw [if_pos hcond] at h
      split at h
      · exact absurd h (by simp)
      · split at h
        · exact absurd h (by simp)
        · exact ih _ _ _ _ _ h
        · rename_i latestTag hpt
          obtain ⟨hdisj, hrest⟩ := ih _ _ _ _ _ h
          refine ⟨?_, hrest⟩
          rcases hdisj with rfl | hex
          · exact Or.inr ⟨_, hpt⟩
          · exact Or.inr hex
    · rw [if_neg hcond] at h
      by_cases hpost : (compareVersion cT current = 0 || cT.Pre.length ≠ 0) = true
      · rw [if_pos hpost] at h
        exact absurd h (by simp)
      · rw [if_neg hpost] at h
        simp only [Option.some_inj, Except.ok.injEq] at h
        subst h
        simp only [Bool.or_eq_true, decide_eq_true_eq, not_or] at hcond hpost
        obtain ⟨hc1, hc2⟩ := hcond
        obtain ⟨hp1, hp2⟩ := hpost
        refine ⟨Or.inl rfl, ?_, hp1, hc2⟩
        exact List.length_eq_zero.mp (by omega)

/-- C7 counterexample: the walk only checks *inequality* with the final
equivalent of the current tag, never ordering, so a git whose closest-tag
query yields the newer final tag `v0.8.0` makes `ClosestFinal` of
`v0.7.0-rc.3` succeed with `v0.8.0`, which is not strictly less than
`v0.7.0`. -/
theorem c7_counterexample :
    ClosestFinal
      { closestTag := fun _ => .ok "v0.8.0".toList,
        firstCommit := fun _ => .error "e".toList,
        hasUpstream := fun _ => .error "e".toList,
        mergeCommitsBetween := fun _ _ => .error "e".toList }
      ⟨0, 7, 0, [rcPR, ⟨[], 3, true⟩], []⟩ 3 = some (.ok ⟨0, 8, 0, [], []⟩) ∧
    ¬(compareVersion ⟨0, 8, 0, [], []⟩ ⟨0, 7, 0, [], []⟩ < 0) := by
  constructor
  · decide
  · decide

/-- C7 (amended): whenever `ClosestFinal` succeeds, the returned tag came
from a successful `parseReleaseTag` (so it is a valid release tag), has no
prerelease component, and differs under semver comparison from the current
tag and from its final-version equivalent (the code checks only
inequality, not strict ordering); non-release tags met during the walk are
skipped without failing. -/
theorem c7_closest_final_properties (g : GitM) (current : Version) (fuel : Nat)
    (res : Version) :
    ClosestFinal g current fuel = some (.ok res) →
    (∃ raw, parseReleaseTag raw = some (.ok res)) ∧
    tagValidate res = .ok () ∧
    res.Pre = [] ∧
    compareVersion res current ≠ 0 ∧
    compareVersion res { current with Pre := [] } ≠ 0 := by
  intro h
  obtain ⟨hdisj, hpre, hcur, hcf⟩ := closestFinalLoop_ok fuel _ _ _ _ _ h
  have hex : ∃ raw, parseReleaseTag raw = some (.ok res) := by
    rcases hdisj with rfl | hex
    · rw [compareVersion_refl] at hcur
      exact absurd rfl hcur
    · exact hex
  obtain ⟨raw, hraw⟩ := hex
  exact ⟨⟨raw, hraw⟩, parse_ok_validate hraw, hpre, hcur, hcf⟩

/-- C7 witness: a walk from `v0.7.0-rc.3` that passes a non-release tag
("sometag", skipped without failing) and ends at `v0.6.3`, which parses,
is final, and differs from the current tag and its final equivalent. -/
theorem c7_closest_final_properties_witness :
    (∃ raw, parseReleaseTag raw = some (.ok ⟨0, 6, 3, [], []⟩)) ∧
    tagValidate ⟨0, 6, 3, [], []⟩ = .ok () ∧
    Version.Pre ⟨0, 6, 3, [], []⟩ = [] ∧
    compareVersion ⟨0, 6, 3, [], []⟩ ⟨0, 7, 0, [rcPR, ⟨[], 3, true⟩], []⟩ ≠ 0 ∧
    compareVersion ⟨0, 6, 3, [], []⟩
      { (⟨0, 7, 0, [rcPR, ⟨[], 3, true⟩], []⟩ : Version) with Pre := [] } ≠ 0 :=
  c7_closest_final_properties
    { closestTag := fun q =>
        if q = "v0.7.0-rc.3~1".toList then .ok "v0.7.0-rc.2".toList
        else if q = "v0.7.0-rc.2~1".toList then .ok "sometag".toList
        else if q = "sometag~1".toList then .ok "v0.6.3".toList
        else .error "no tag".toList,
      firstCommit := fun _ => .error "e".toList,
      hasUpstream := fun _ => .error "e".toList,
      mergeCommitsBetween := fun _ _ => .error "e".toList }
    ⟨0, 7, 0, [rcPR, ⟨[], 3, true⟩], []⟩ 10 ⟨0, 6, 3, [], []⟩ (by decide)

end KRT

namespace KRT

theorem len_ne_zero {a : Str} (h : a ≠ []) (b : Str) : ¬((a ++ b).length = 0) := by
  cases a with
  | nil => exact absurd rfl h
  | cons c cs => simp

theorem length_dropWhile_le' (p : Char → Bool) (l : Str) :
    (l.dropWhile p).length ≤ l.length := by
  induction l with
  | nil => simp
  | cons c cs ih =>
    rw [List.dropWhile_cons]
    by_cases hc : p c
    · rw [if_pos hc]
      simp only [List.length_cons]
      omega
    · rw [if_neg hc]

theorem dropSpaces_keep_head {c : Char} {M' : Str}
    (hd : dropSpacesL (c :: M') = c :: M') : goIsSpace c = false := by
  by_cases hc : goIsSpace c = true
  · exfalso
    rw [dropSpacesL, List.dropWhile_cons, if_pos hc] at hd
    have hlen := congrArg List.length hd
    have hle : (List.dropWhile goIsSpace M').length ≤ M'.length :=
      length_dropWhile_le' goIsSpace M'
    simp at hlen
    omega
  · simpa using hc

theorem goTrim_concat' {M : Str} (T : Str) (hd : dropSpacesL M = M)
    (ht : trimRightL M = M) (hne : M ≠ []) : goTrim (M ++ T) = M ++ trimRightL T := by
  match M, hne with
  | c :: M', _ =>
    exact goTrim_concat T rfl (dropSpaces_keep_head hd) ht

/-- C5 counterexample: when a textual alias marker is immediately followed
by its emoji partner, the code strips both (`TrimPrefix` is applied to the
alias and then to the emoji), so `classify(":sparkles:" + "✨x")` yields
`(Feature, "x")`, not the `(Feature, trim("✨x"))` the claim predicts. -/
theorem c5_counterexample :
    PRTypeFromTitle (aliasFeature ++ "✨x".toList) = (.feature, "x".toList) ∧
    (PRType.feature, goTrim (trimPre "✨x".toList vs16)) = (.feature, "✨x".toList) ∧
    ("x".toList : Str) ≠ "✨x".toList := by
  refine ⟨by decide, by decide, by decide⟩

/-- C5 (amended): for every recognized marker M and suffix T such that,
when M is a textual alias, T does not itself begin with the corresponding
emoji, `classify (M ++ T)` returns the marker's category together with T
stripped of one immediately-following variation selector and trimmed; and
every input whose trimmed form starts with no recognized marker — even if
one occurs later — classifies as Uncategorized with the trimmed input
unchanged. -/
theorem c5_classifier :
    (∀ (M : Str) (t : PRType) (T : Str), (M, t) ∈ markers →
      (∀ e, pairedEmoji M = some e → hasPre T e = false) →
      PRTypeFromTitle (M ++ T) = (t, goTrim (trimPre T vs16))) ∧
    (∀ s : Str, (∀ p ∈ markers, hasPre (goTrim s) p.1 = false) →
      PRTypeFromTitle s = (.uncategorized, goTrim s)) := by
  constructor
  · intro M t T hmem hexcl
    simp only [markers, List.mem_cons, List.mem_singleton, Prod.mk.injEq,
      List.not_mem_nil, or_false] at hmem
    rcases hmem with hm | hm | hm | hm | hm | hm | hm | hm | hm | hm | hm | hm <;>
      obtain ⟨rfl, rfl⟩ := hm
    · have hgc : goTrim (aliasFeature ++ T) = aliasFeature ++ trimRightL T :=
        goTrim_concat' T (by decide) (by decide) (by decide)
      simp only [PRTypeFromTitle, hgc]
      rw [if_neg (len_ne_zero (by decide) (trimRightL T))]
      rw [if_pos (by simp [isPre_append aliasFeature (trimRightL T)])]
      rw [trimPre_append]
      rw [trimPre_none (hasPre_trimRight (hexcl emojiFeature (by decide)))]
      simp only [afterMarker, vsTrim_comm]
    · have hgc : goTrim (emojiFeature ++ T) = emojiFeature ++ trimRightL T :=
        goTrim_concat' T (by decide) (by decide) (by decide)
      simp only [PRTypeFromTitle, hgc]
      rw [if_neg (len_ne_zero (by decide) (trimRightL T))]
      rw [if_pos (by simp [isPre_append emojiFeature (trimRightL T)])]
      rw [trimPre_none (@noPre_append emojiFeature aliasFeature (trimRightL T) (by decide) (by decide))]
      rw [trimPre_append]
      simp only [afterMarker, vsTrim_comm]
    · have hgc : goTrim (aliasBugfix ++ T) = aliasBugfix ++ trimRightL T :=
        goTrim_concat' T (by decide) (by decide) (by decide)
      simp only [PRTypeFromTitle, hgc]
      rw [if_neg (len_ne_zero (by decide) (trimRightL T))]
      rw [if_neg (by simp [@noPre_append aliasBugfix aliasFeature (trimRightL T) (by decide) (by decide),
        @noPre_append aliasBugfix emojiFeature (trimRightL T) (by decide) (by decide)])]
      rw [if_pos (by simp [isPre_append aliasBugfix (trimRightL T)])]
      rw [trimPre_append]
      rw [trimPre_none (hasPre_trimRight (hexcl emojiBugfix (by decide)))]
      simp only [afterMarker, vsTrim_comm]
    · have hgc : goTrim (emojiBugfix ++ T) = emojiBugfix ++ trimRightL T :=
        goTrim_concat' T (by decide) (by decide) (by decide)
      simp only [PRTypeFromTitle, hgc]
      rw [if_neg (len_ne_zero (by decide) (trimRightL T))]
      rw [if_neg (by simp [@noPre_append emojiBugfix aliasFeature (trimRightL T) (by decide) (by decide),
        @noPre_append emojiBugfix emojiFeature (trimRightL T) (by decide) (by decide)])]
      rw [if_pos (by simp [isPre_append emojiBugfix (trimRightL T)])]
      rw [trimPre_none (@noPre_append emojiBugfix aliasBugfix (trimRightL T) (by decide) (by decide))]
      rw [trimPre_append]
      simp only [afterMarker, vsTrim_comm]
    · have hgc : goTrim (aliasDocs ++ T) = aliasDocs ++ trimRightL T :=
        goTrim_concat' T (by decide) (by decide) (by decide)
      simp only [PRTypeFromTitle, hgc]
      rw [if_neg (len_ne_zero (by decide) (trimRightL T))]
      rw [if_neg (by simp [@noPre_append aliasDocs aliasFeature (trimRightL T) (by decide) (by decide),
        @noPre_append aliasDocs emojiFeature (trimRightL T) (by decide) (by decide)])]
      rw [if_neg (by simp [@noPre_append aliasDocs aliasBugfix (trimRightL T) (by decide) (by decide),
        @noPre_append aliasDocs emojiBugfix (trimRightL T) (by decide) (by decide)])]
      rw [if_pos (by simp [isPre_append aliasDocs (trimRightL T)])]
      rw [trimPre_append]
      rw [trimPre_none (hasPre_trimRight (hexcl emojiDocs (by decide)))]
      simp only [afterMarker, vsTrim_comm]
    · have hgc : goTrim (emojiDocs ++ T) = emojiDocs ++ trimRightL T :=
        goTrim_concat' T (by decide) (by decide) (by decide)
      simp only [PRTypeFromTitle, hgc]
      rw [if_neg (len_ne_zero (by decide) (trimRightL T))]
      rw [if_neg (by simp [@noPre_append emojiDocs aliasFeature (trimRightL T) (by decide) (by decide),
        @noPre_append emojiDocs emojiFeature (trimRightL T) (by decide) (by decide)])]
      rw [if_neg (by simp [@noPre_append emojiDocs aliasBugfix (trimRightL T) (by decide) (by decide),
        @noPre_append emojiDocs emojiBugfix (trimRightL T) (by decide) (by decide)])]
      rw [if_pos (by simp [isPre_append emojiDocs (trimRightL T)])]
      rw [trimPre_none (@noPre_append emojiDocs aliasDocs (trimRightL T) (by decide) (by decide))]
      rw [trimPre_append]
      simp only [afterMarker, vsTrim_comm]
    · have hgc : goTrim (aliasInfra ++ T) = aliasInfra ++ trimRightL T :=
        goTrim_concat' T (by decide) (by decide) (by decide)
      simp only [PRTypeFromTitle, hgc]
      rw [if_neg (len_ne_zero (by decide) (trimRightL T))]
      rw [if_neg (by simp [@noPre_append aliasInfra aliasFeature (trimRightL T) (by decide) (by decide),
        @noPre_append aliasInfra emojiFeature (trimRightL T) (by decide) (by decide)])]
      rw [if_neg (by simp [@noPre_append aliasInfra aliasBugfix (trimRightL T) (by decide) (by decide),
        @noPre_append aliasInfra emojiBugfix (trimRightL T) (by decide) (by decide)])]
      rw [if_neg (by simp [@noPre_append aliasInfra aliasDocs (trimRightL T) (by decide) (by decide),
        @noPre_append aliasInfra emojiDocs (trimRightL T) (by decide) (by decide)])]
      rw [if_pos (by simp [isPre_append aliasInfra (trimRightL T)])]
      rw [trimPre_append]
      rw [trimPre_none (hasPre_trimRight (hexcl emojiInfra (by decide)))]
      simp only [afterMarker, vsTrim_comm]
    · have hgc : goTrim (emojiInfra ++ T) = emojiInfra ++ trimRightL T :=
        goTrim_concat' T (by decide) (by decide) (by decide)
      simp only [PRTypeFromTitle, hgc]
      rw [if_neg (len_ne_zero (by decide) (trimRightL T))]
      rw [if_neg (by simp [@noPre_append emojiInfra aliasFeature (trimRightL T) (by decide) (by decide),
        @noPre_append emojiInfra emojiFeature (trimRightL T) (by decide) (by decide)])]
      rw [if_neg (by simp [@noPre_append emojiInfra aliasBugfix (trimRightL T) (by decide) (by decide),
        @noPre_append emojiInfra emojiBugfix (trimRightL T) (by decide) (by decide)])]
      rw [if_neg (by simp [@noPre_append emojiInfra aliasDocs (trimRightL T) (by decide) (by decide),
        @noPre_append emojiInfra emojiDocs (trimRightL T) (by decide) (by decide)])]
      rw [if_pos (by simp [isPre_append emojiInfra (trimRightL T)])]
      rw [trimPre_none (@noPre_append emojiInfra aliasInfra (trimRightL T) (by decide) (by decide))]
      rw [trimPre_append]
      simp only [afterMarker, vsTrim_comm]
    · have hgc : goTrim (aliasBreaking ++ T) = aliasBreaking ++ trimRightL T :=
        goTrim_concat' T (by decide) (by decide) (by decide)
      simp only [PRTypeFromTitle, hgc]
      rw [if_neg (len_ne_zero (by decide) (trimRightL T))]
      rw [if_neg (by simp [@noPre_append aliasBreaking aliasFeature (trimRightL T) (by decide) (by decide),
        @noPre_append aliasBreaking emojiFeature (trimRightL T) (by decide) (by decide)])]
      rw [if_neg (by simp [@noPre_append aliasBreaking aliasBugfix (trimRightL T) (by decide) (by decide),
        @noPre_append aliasBreaking emojiBugfix (trimRightL T) (by decide) (by decide)])]
      rw [if_neg (by simp [@noPre_append aliasBreaking aliasDocs (trimRightL T) (by decide) (by decide),
        @noPre_append aliasBreaking emojiDocs (trimRightL T) (by decide) (by decide)])]
      rw [if_neg (by simp [@noPre_append aliasBreaking aliasInfra (trimRightL T) (by decide) (by decide),
        @noPre_append aliasBreaking emojiInfra (trimRightL T) (by decide) (by decide)])]
      rw [if_pos (by simp [isPre_append aliasBreaking (trimRightL T)])]
      rw [trimPre_append]
      rw [trimPre_none (hasPre_trimRight (hexcl emojiBreaking (by decide)))]
      simp only [afterMarker, vsTrim_comm]
    · have hgc : goTrim (emojiBreaking ++ T) = emojiBreaking ++ trimRightL T :=
        goTrim_concat' T (by decide) (by decide) (by decide)
      simp only [PRTypeFromTitle, hgc]
      rw [if_neg (len_ne_zero (by decide) (trimRightL T))]
      rw [if_neg (by simp [@noPre_append emojiBreaking aliasFeature (trimRightL T) (by decide) (by decide),
        @noPre_append emojiBreaking emojiFeature (trimRightL T) (by decide) (by decide)])]
      rw [if_neg (by simp [@noPre_append emojiBreaking aliasBugfix (trimRightL T) (by decide) (by decide),
        @noPre_append emojiBreaking emojiBugfix (trimRightL T) (by decide) (by decide)])]
      rw [if_neg (by simp [@noPre_append emojiBreaking aliasDocs (trimRightL T) (by decide) (by decide),
        @noPre_append emojiBreaking emojiDocs (trimRightL T) (by decide) (by decide)])]
      rw [if_neg (by simp [@noPre_append emojiBreaking aliasInfra (trimRightL T) (by decide) (by decide),
        @noPre_append emojiBreaking emojiInfra (trimRightL T) (by decide) (by decide)])]
      rw [if_pos (by simp [isPre_append emojiBreaking (trimRightL T)])]
      rw [trimPre_none (@noPre_append emojiBreaking aliasBreaking (trimRightL T) (by decide) (by decide))]
      rw [trimPre_append]
      simp only [afterMarker, vsTrim_comm]
    · have hgc : goTrim (aliasInfraLegacy ++ T) = aliasInfraLegacy ++ trimRightL T :=
        goTrim_concat' T (by decide) (by decide) (by decide)
      simp only [PRTypeFromTitle, hgc]
      rw [if_neg (len_ne_zero (by decide) (trimRightL T))]
      rw [if_neg (by simp [@noPre_append aliasInfraLegacy aliasFeature (trimRightL T) (by decide) (by decide),
        @noPre_append aliasInfraLegacy emojiFeature (trimRightL T) (by decide) (by decide)])]
      rw [if_neg (by simp [@noPre_append aliasInfraLegacy aliasBugfix (trimRightL T) (by decide) (by decide),
        @noPre_append aliasInfraLegacy emojiBugfix (trimRightL T) (by decide) (by decide)])]
      rw [if_neg (by simp [@noPre_append aliasInfraLegacy aliasDocs (trimRightL T) (by decide) (by decide),
        @noPre_append aliasInfraLegacy emojiDocs (trimRightL T) (by decide) (by decide)])]
      rw [if_neg (by simp [@noPre_append aliasInfraLegacy aliasInfra (trimRightL T) (by decide) (by decide),
        @noPre_append aliasInfraLegacy emojiInfra (trimRightL T) (by decide) (by decide)])]
      rw [if_neg (by simp [@noPre_append aliasInfraLegacy aliasBreaking (trimRightL T) (by decide) (by decide),
        @noPre_append aliasInfraLegacy emojiBreaking (trimRightL T) (by decide) (by decide)])]
      rw [if_pos (by simp [isPre_append aliasInfraLegacy (trimRightL T)])]
      rw [trimPre_append]
      rw [trimPre_none (hasPre_trimRight (hexcl emojiInfraLegacy (by decide)))]
      simp only [afterMarker, vsTrim_comm]
    · have hgc : goTrim (emojiInfraLegacy ++ T) = emojiInfraLegacy ++ trimRightL T :=
        goTrim_concat' T (by decide) (by decide) (by decide)
      simp only [PRTypeFromTitle, hgc]
      rw [if_neg (len_ne_zero (by decide) (trimRightL T))]
      rw [if_neg (by simp [@noPre_append emojiInfraLegacy aliasFeature (trimRightL T) (by decide) (by decide),
        @noPre_append emojiInfraLegacy emojiFeature (trimRightL T) (by decide) (by decide)])]
      rw [if_neg (by simp [@noPre_append emojiInfraLegacy aliasBugfix (trimRightL T) (by decide) (by decide),
        @noPre_append emojiInfraLegacy emojiBugfix (trimRightL T) (by decide) (by decide)])]
      rw [if_neg (by simp [@noPre_append emojiInfraLegacy aliasDocs (trimRightL T) (by decide) (by decide),
        @noPre_append emojiInfraLegacy emojiDocs (trimRightL T) (by decide) (by decide)])]
      rw [if_neg (by simp [@noPre_append emojiInfraLegacy aliasInfra (trimRightL T) (by decide) (by decide),
        @noPre_append emojiInfraLegacy emojiInfra (trimRightL T) (by decide) (by decide)])]
      rw [if_neg (by simp [@noPre_append emojiInfraLegacy aliasBreaking (trimRightL T) (by decide) (by decide),
        @noPre_append emojiInfraLegacy emojiBreaking (trimRightL T) (by decide) (by decide)])]
      rw [if_pos (by simp [isPre_append emojiInfraLegacy (trimRightL T)])]
      rw [trimPre_none (@noPre_append emojiInfraLegacy aliasInfraLegacy (trimRightL T) (by decide) (by decide))]
      rw [trimPre_append]
      simp only [afterMarker, vsTrim_comm]
  · intro s hno
    by_cases hlen : (goTrim s).length = 0
    · simp [PRTypeFromTitle, hlen]
    · simp only [PRTypeFromTitle]
      rw [if_neg hlen]
      rw [if_neg (by simp [hno (aliasFeature, .feature) (by decide), hno (emojiFeature, .feature) (by decide)])]
      rw [if_neg (by simp [hno (aliasBugfix, .bugfix) (by decide), hno (emojiBugfix, .bugfix) (by decide)])]
      rw [if_neg (by simp [hno (aliasDocs, .docs) (by decide), hno (emojiDocs, .docs) (by decide)])]
      rw [if_neg (by simp [hno (aliasInfra, .infra) (by decide), hno (emojiInfra, .infra) (by decide)])]
      rw [if_neg (by simp [hno (aliasBreaking, .breaking) (by decide), hno (emojiBreaking, .breaking) (by decide)])]
      rw [if_neg (by simp [hno (aliasInfraLegacy, .infra) (by decide), hno (emojiInfraLegacy, .infra) (by decide)])]

/-- C5 witness: `":bug:" ++ " fix it "` classifies as a bugfix with title
"fix it", and a title with a marker mid-sentence stays Uncategorized. -/
theorem c5_classifier_witness :
    PRTypeFromTitle (aliasBugfix ++ " fix it ".toList) =
      (.bugfix, goTrim (trimPre " fix it ".toList vs16)) ∧
    PRTypeFromTitle "this is not a ✨ feature".toList =
      (.uncategorized, goTrim "this is not a ✨ feature".toList) := by
  constructor
  · refine c5_classifier.1 aliasBugfix .bugfix " fix it ".toList (by decide) ?_
    intro e he
    have hpe : pairedEmoji aliasBugfix = some emojiBugfix := by decide
    rw [hpe, Option.some_inj] at he
    subst he
    decide
  · exact c5_classifier.2 "this is not a ✨ feature".toList (by decide)

end KRT

namespace KRT

/-! Lemmas about the `Sscanf` models on well-formed lines. -/

theorem scanLit_self : ∀ (lit r : Str), scanLit lit (lit ++ r) = some r := by
  intro lit
  induction lit with
  | nil => intro r; rfl
  | cons c cs ih => intro r; simp [scanLit, ih]

theorem goodTok_no_newline {s : Str} (h : goodTok s) : '\n' ∉ s := by
  intro hm
  have h2 := h.2 '\n' hm
  simp [goIsSpace] at h2

theorem takeWhile_append_all {p : Char → Bool} {a : Str} (b : Str)
    (h1 : ∀ c ∈ a, p c = true)
    (h2 : b = [] ∨ ∃ d r, b = d :: r ∧ p d = false) :
    (a ++ b).takeWhile p = a := by
  induction a with
  | nil =>
    rcases h2 with rfl | ⟨d, r, rfl, hd⟩
    · rfl
    · simp [List.takeWhile_cons, hd]
  | cons c cs ih =>
    have hc := h1 c (List.mem_cons_self c cs)
    simp only [List.cons_append, List.takeWhile_cons, hc, if_true, List.cons.injEq, true_and]
    exact ih (fun x hx => h1 x (List.mem_cons_of_mem c hx))

theorem scanTok_token {tok : Str} (rest : Str) (htok : goodTok tok)
    (hrest : rest = [] ∨ ∃ d r, rest = d :: r ∧ goIsSpace d = true) :
    scanTok (tok ++ rest) = some (tok, rest) := by
  obtain ⟨hne, hns⟩ := htok
  match tok, hne with
  | c :: t, _ =>
    have hds : dropSpacesL ((c :: t) ++ rest) = (c :: t) ++ rest :=
      dropSpaces_cons_keep (hns c (by simp)) _
    have htw : ((c :: t) ++ rest).takeWhile (fun c => !goIsSpace c) = c :: t := by
      apply takeWhile_append_all
      · intro x hx
        simp [hns x hx]
      · rcases hrest with rfl | ⟨d, r, rfl, hd⟩
        · exact Or.inl rfl
        · exact Or.inr ⟨d, r, rfl, by simp [hd]⟩
    simp only [scanTok]
    rw [hds, htw]
    simp [List.drop_left]

theorem scanSpaceRun_cons_space (X : Str) :
    scanSpaceRun (' ' :: X) = some (dropSpacesL X) := by
  show (if goIsSpace ' ' = true then some (dropSpacesL X) else none) = some (dropSpacesL X)
  rw [if_pos (by decide)]

theorem scanCommit_line {hash : Str} (h : goodTok hash) :
    scanCommit ("commit ".toList ++ hash) = some hash := by
  obtain ⟨hne, hns⟩ := h
  match hash, hne with
  | c :: t, _ =>
    have h0 : scanCommit ("commit ".toList ++ (c :: t)) =
        (scanSpaceRun (' ' :: c :: t)).bind fun r2 => (scanTok r2).map fun tk => tk.1 := rfl
    have htk : scanTok (c :: t) = some (c :: t, []) := by
      have h2 := scanTok_token [] ⟨by simp, hns⟩ (Or.inl rfl)
      rwa [List.append_nil] at h2
    rw [h0, scanSpaceRun_cons_space, dropSpaces_cons_keep (hns c (by simp)),
      Option.some_bind, htk]
    rfl

theorem scanMergePR_line {pr fork : Str} (hpr : goodTok pr) (hfork : goodTok fork) :
    scanMergePR ("Merge pull request #".toList
      ++ (pr ++ (' ' :: ("from".toList ++ (' ' :: fork))))) = some (pr, fork) := by
  have hpre : ∀ tail : Str, scanMergePR ("Merge pull request #".toList ++ tail) =
      (scanTok tail).bind fun prp =>
      (scanSpaceRun prp.2).bind fun r8 =>
      (scanLit "from".toList r8).bind fun r9 =>
      (scanSpaceRun r9).bind fun r10 =>
      (scanTok r10).map fun f => (prp.1, f.1) := fun tail => rfl
  obtain ⟨hfne, hfns⟩ := hfork
  match fork, hfne with
  | f0 :: ft, _ =>
    have htkf : scanTok (f0 :: ft) = some (f0 :: ft, []) := by
      have h2 := scanTok_token [] ⟨by simp, hfns⟩ (Or.inl rfl)
      rwa [List.append_nil] at h2
    have hdsf : dropSpacesL ("from".toList ++ (' ' :: (f0 :: ft)))
        = "from".toList ++ (' ' :: (f0 :: ft)) := dropSpaces_cons_keep (by decide) _
    rw [hpre]
    rw [scanTok_token (' ' :: ("from".toList ++ (' ' :: (f0 :: ft)))) hpr
      (Or.inr ⟨_, _, rfl, by decide⟩)]
    simp only [Option.some_bind]
    rw [scanSpaceRun_cons_space, hdsf, Option.some_bind, scanLit_self,
      Option.some_bind, scanSpaceRun_cons_space, dropSpaces_cons_keep (hfns f0 (by simp)),
      Option.some_bind, htkf]
    rfl

end KRT

namespace KRT

/-! The line loop on block-structured input. -/

theorem chLoop_good {l1 l2 : Str} {hsh pr fork : Str} (title : Str) (rest : List Str)
    (log : ChangeLog) (h1 : scanCommit l1 = some hsh)
    (h2 : scanMergePR l2 = some (pr, fork)) :
    chLoop (l1 :: l2 :: [] :: title :: rest) log =
      chLoop rest (entryFromCommit log pr title) := by
  simp [chLoop, h1, h2]

theorem chLoop_manual {l1 lr : Str} {hsh : Str} (rest : List Str) (log : ChangeLog)
    (h1 : scanCommit l1 = some hsh) (h2 : scanMergePR lr = none) :
    chLoop (l1 :: lr :: [] :: rest) log = chLoop rest log := by
  have h0 : scanCommit ([] : Str) = none := rfl
  simp [chLoop, h1, h2, h0]

theorem splitAux_no_sep {sep : Char} : ∀ (s acc : Str), sep ∉ s →
    splitOnCharAux sep s acc = [acc.reverse ++ s] := by
  intro s
  induction s with
  | nil =>
    intro acc _
    simp [splitOnCharAux]
  | cons c cs ih =>
    intro acc h
    have hc : ¬(c = sep) := fun hc => h (hc ▸ List.mem_cons_self c cs)
    simp only [splitOnCharAux]
    rw [if_neg hc, ih (c :: acc) (fun hm => h (List.mem_cons_of_mem c hm))]
    simp

theorem splitAux_sep {sep : Char} : ∀ (a b acc : Str), sep ∉ a →
    splitOnCharAux sep (a ++ sep :: b) acc =
      (acc.reverse ++ a) :: splitOnCharAux sep b [] := by
  intro a
  induction a with
  | nil =>
    intro b acc _
    simp [splitOnCharAux]
  | cons c cs ih =>
    intro b acc h
    have hc : ¬(c = sep) := fun hc => h (hc ▸ List.mem_cons_self c cs)
    simp only [List.cons_append, splitOnCharAux, List.append_eq]
    rw [if_neg hc, ih b (c :: acc) (fun hm => h (List.mem_cons_of_mem c hm))]
    simp

theorem splitOnChar_joinLines : ∀ (L : List Str), (∀ l ∈ L, '\n' ∉ l) → L ≠ [] →
    splitOnChar '\n' (joinLines L) = L := by
  intro L
  induction L with
  | nil =>
    intro _ h
    exact absurd rfl h
  | cons l L' ih =>
    intro hno _
    cases L' with
    | nil =>
      show splitOnChar '\n' (joinLines [l]) = [l]
      rw [show joinLines [l] = l from rfl]
      unfold splitOnChar
      rw [splitAux_no_sep l [] (hno l (by simp))]
      simp
    | cons l2 L'' =>
      rw [show joinLines (l :: l2 :: L'') = l ++ '\n' :: joinLines (l2 :: L'') from rfl]
      unfold splitOnChar
      rw [splitAux_sep l _ [] (hno l (by simp))]
      simp only [List.reverse_nil, List.nil_append]
      congr 1
      exact ih (fun x hx => hno x (by simp [hx])) (by simp)

theorem no_nl_append {a b : Str} (ha : '\n' ∉ a) (hb : '\n' ∉ b) : '\n' ∉ a ++ b := by
  intro hm
  rw [List.mem_append] at hm
  rcases hm with hm | hm
  · exact ha hm
  · exact hb hm

theorem blockLines_no_newline {b : LogBlock} (hb : blockOK b) :
    ∀ l ∈ blockLines b, '\n' ∉ l := by
  cases b with
  | merged hash pr fork title =>
    obtain ⟨hh, hp, hf, ht⟩ := hb
    intro l hl
    simp only [blockLines, List.mem_cons, List.mem_singleton, List.not_mem_nil,
      or_false] at hl
    rcases hl with rfl | rfl | rfl | rfl
    · exact no_nl_append (by decide) (goodTok_no_newline hh)
    · exact no_nl_append (no_nl_append (no_nl_append (by decide)
        (goodTok_no_newline hp)) (by decide)) (goodTok_no_newline hf)
    · simp
    · exact ht
  | manual hash rest =>
    obtain ⟨hh, hr, _⟩ := hb
    intro l hl
    simp only [blockLines, List.mem_cons, List.mem_singleton, List.not_mem_nil,
      or_false] at hl
    rcases hl with rfl | rfl | rfl
    · exact no_nl_append (by decide) (goodTok_no_newline hh)
    · exact hr
    · simp

theorem chLoop_blocks : ∀ (bs : List LogBlock), (∀ b ∈ bs, blockOK b) →
    ∀ log, chLoop ((bs.map blockLines).flatten) log =
      bs.foldl (fun lg b => blockStep b lg) log := by
  intro bs
  induction bs with
  | nil =>
    intro _ log
    rfl
  | cons b bs' ih =>
    intro hok log
    have hb := hok b (by simp)
    rw [List.map_cons, List.flatten_cons, List.foldl_cons]
    cases b with
    | merged hash pr fork title =>
      obtain ⟨hh, hp, hf, ht⟩ := hb
      have hlines : blockLines (.merged hash pr fork title) ++ ((bs'.map blockLines).flatten) =
          ("commit ".toList ++ hash)
            :: ("Merge pull request #".toList
                ++ (pr ++ (' ' :: ("from".toList ++ (' ' :: fork)))))
            :: [] :: title :: ((bs'.map blockLines).flatten) := by
        simp [blockLines]
      rw [hlines, chLoop_good title _ log (scanCommit_line hh) (scanMergePR_line hp hf)]
      exact ih (fun x hx => hok x (by simp [hx])) _
    | manual hash restl =>
      obtain ⟨hh, hr, hnm⟩ := hb
      have hlines : blockLines (.manual hash restl) ++ ((bs'.map blockLines).flatten) =
          ("commit ".toList ++ hash) :: restl :: [] :: ((bs'.map blockLines).flatten) := by
        simp [blockLines]
      rw [hlines, chLoop_manual _ log (scanCommit_line hh) hnm]
      exact ih (fun x hx => hok x (by simp [hx])) _

end KRT

namespace KRT

/-- Folding the per-block step appends each category's entries, in block
order, to the corresponding bucket. -/
theorem foldl_blockStep : ∀ (bs : List LogBlock) (log : ChangeLog),
    bs.foldl (fun lg b => blockStep b lg) log =
      { Breaking := log.Breaking ++ catEntries .breaking (specEntries bs),
        Features := log.Features ++ catEntries .feature (specEntries bs),
        Bugs := log.Bugs ++ catEntries .bugfix (specEntries bs),
        Docs := log.Docs ++ catEntries .docs (specEntries bs),
        Infra := log.Infra ++ catEntries .infra (specEntries bs),
        Uncategorized := log.Uncategorized ++ catEntries .uncategorized (specEntries bs) } := by
  intro bs
  induction bs with
  | nil =>
    intro log
    simp [specEntries, catEntries]
  | cons b bs' ih =>
    intro log
    rw [List.foldl_cons, ih]
    cases b with
    | manual hash restl =>
      have hspec : specEntries (LogBlock.manual hash restl :: bs') = specEntries bs' := by
        simp [specEntries, blockEntry]
      rw [hspec]
      rfl
    | merged hash pr fork title =>
      rcases hcl : PRTypeFromTitle title with ⟨pt, tt⟩
      have hspec : specEntries (LogBlock.merged hash pr fork title :: bs')
          = (pr, title) :: specEntries bs' := by
        simp [specEntries, blockEntry]
      have hstep : blockStep (.merged hash pr fork title) log
          = entryFromCommit log pr title := rfl
      rw [hspec, hstep]
      unfold entryFromCommit
      rw [hcl]
      cases pt <;>
        simp [catEntries, List.filter_cons, hcl, List.append_assoc]

end KRT

namespace KRT

/-- C9: on any raw commit-log text the parse itself never fails (an error
comes only from the underlying git query), and on a log made of
well-formed GitHub merge blocks interleaved with manual merge blocks the
well-formed blocks each contribute exactly one entry to the bucket chosen
by the classifier, the manual blocks are skipped entirely, and every
bucket keeps its entries in input order. -/
theorem c9_commit_log_parse (g : GitM) (branch : ReleaseBranch) (since : Committish) :
    (∀ raw, g.mergeCommitsBetween since.render (branchRender branch) = .ok raw →
      ∃ log, ChangesSince g branch since = .ok log) ∧
    (∀ bs : List LogBlock, (∀ b ∈ bs, blockOK b) →
      g.mergeCommitsBetween since.render (branchRender branch) =
        .ok (joinLines ((bs.map blockLines).flatten)) →
      ChangesSince g branch since = .ok (specLog bs)) := by
  constructor
  · intro raw h
    refine ⟨chLoop (splitOnChar '\n' raw) {}, ?_⟩
    simp [ChangesSince, h]
  · intro bs hok h
    unfold ChangesSince
    rw [h]
    have hbody : chLoop (splitOnChar '\n' (joinLines ((bs.map blockLines).flatten))) {}
        = specLog bs := by
      cases bs with
      | nil => rfl
      | cons b0 bs0 =>
        have hnl : ∀ l ∈ ((b0 :: bs0).map blockLines).flatten, '\n' ∉ l := by
          intro l hl
          rw [List.mem_flatten] at hl
          obtain ⟨ls, hls, hl⟩ := hl
          rw [List.mem_map] at hls
          obtain ⟨b', hb', rfl⟩ := hls
          exact blockLines_no_newline (hok b' hb') l hl
        have hne : ((b0 :: bs0).map blockLines).flatten ≠ [] := by
          rw [List.map_cons, List.flatten_cons]
          cases b0 <;> simp [blockLines]
        rw [splitOnChar_joinLines _ hnl hne, chLoop_blocks _ hok, foldl_blockStep]
        simp [specLog]
    show Except.ok (chLoop (splitOnChar '\n'
      (joinLines ((bs.map blockLines).flatten))) {}) = Except.ok (specLog bs)
    rw [hbody]

end KRT

namespace KRT

/-- C9 witness: a log mixing a manual merge with three well-formed merge
commits parses with the manual merge skipped, one feature entry, and two
bug entries in input order. -/
theorem c9_commit_log_parse_witness :
    ChangesSince
      { closestTag := fun _ => .error "e".toList,
        firstCommit := fun _ => .error "e".toList,
        hasUpstream := fun _ => .error "e".toList,
        mergeCommitsBetween := fun _ _ =>
          .ok (joinLines ((([LogBlock.manual "06787b6b".toList
          "Merge branch master-of-fork into k8s-1.15.3".toList,
        LogBlock.merged "fdc6658a".toList "850".toList
          "akutz/feature/createOrPatch".toList "✨CreateOrPatch".toList,
        LogBlock.merged "5757a389".toList "1155".toList
          "DirectXMan12/bug/webhook-server-threadsafe".toList
          ":bug: Ensure that webhook server is thread/start-safe".toList,
        LogBlock.merged "20af9010".toList "1163".toList
          "vincepri/watches-controller-bug".toList
          "🐛 Controller.Watch() should not store watches if already started".toList]).map blockLines).flatten)) }
      ⟨⟨0, 6, 0, [], []⟩, false⟩ (.somec "abcdef".toList) =
      .ok { Features := [⟨"850".toList, "CreateOrPatch".toList⟩],
            Bugs := [⟨"1155".toList,
                "Ensure that webhook server is thread/start-safe".toList⟩,
              ⟨"1163".toList,
                "Controller.Watch() should not store watches if already started".toList⟩] } := by
  have h := (c9_commit_log_parse
    { closestTag := fun _ => .error "e".toList,
      firstCommit := fun _ => .error "e".toList,
      hasUpstream := fun _ => .error "e".toList,
      mergeCommitsBetween := fun _ _ =>
        .ok (joinLines ((([LogBlock.manual "06787b6b".toList
          "Merge branch master-of-fork into k8s-1.15.3".toList,
        LogBlock.merged "fdc6658a".toList "850".toList
          "akutz/feature/createOrPatch".toList "✨CreateOrPatch".toList,
        LogBlock.merged "5757a389".toList "1155".toList
          "DirectXMan12/bug/webhook-server-threadsafe".toList
          ":bug: Ensure that webhook server is thread/start-safe".toList,
        LogBlock.merged "20af9010".toList "1163".toList
          "vincepri/watches-controller-bug".toList
          "🐛 Controller.Watch() should not store watches if already started".toList]).map blockLines).flatten)) }
    ⟨⟨0, 6, 0, [], []⟩, false⟩ (.somec "abcdef".toList)).2
    ([LogBlock.manual "06787b6b".toList
          "Merge branch master-of-fork into k8s-1.15.3".toList,
        LogBlock.merged "fdc6658a".toList "850".toList
          "akutz/feature/createOrPatch".toList "✨CreateOrPatch".toList,
        LogBlock.merged "5757a389".toList "1155".toList
          "DirectXMan12/bug/webhook-server-threadsafe".toList
          ":bug: Ensure that webhook server is thread/start-safe".toList,
        LogBlock.merged "20af9010".toList "1163".toList
          "vincepri/watches-controller-bug".toList
          "🐛 Controller.Watch() should not store watches if already started".toList]) (by decide) rfl
  rw [h]
  decide

end KRT
